import Mathlib

/-!
Verification of the liberty-dev scraper core against its specification.

The development shallowly embeds the Python sources under
`apps/scraper/scraper_core` and `apps/scraper/scrapers/farfetch`:

* `models.py`        -> `BaseImage`, `BaseOffer`, `ProductVariant`,
                        `FarfetchProduct`, `price_range`
* `utils.py`         -> `clean_text`, `validate_price`,
                        `validate_product_data`, `extract_json_ld`
* `json_parser.py`   -> `parse_product_variants`, `create_product_from_html`,
                        `create_product_from_json`, `jsonParseProduct`
* `scraper.py`       -> `extract_brand`, `is_target_brand`,
                        `scraper_parse_product`
* `base_scraper.py`  -> `scrape_product`, `scrape_products`
* `async_http_client.py` -> `client_get` (retry loop as a trace-producing
                        state machine over an attempt oracle)
* `mouse_movement_generator.py` -> `generate_movement` and its helpers,
                        parameterised by an explicit randomness oracle.

Python floats are idealised as rationals; Python machine behaviour such as
dict truthiness, `dict.get` defaults, `int()` truncation and banker's
`round()` is modelled explicitly (`truthy`, `pyGetD`, `pyInt`, `pyRound`).
Randomness (`random.randint`, `random.uniform`, `np.random.normal`) is
modelled by oracle records whose draws are constrained by hypotheses that
mirror the distributions' supports; a fixed seed corresponds to a fixed
oracle.
-/

set_option autoImplicit false

namespace LibertyDev

/-- Embedded Python values, as produced by `json.loads` on embedded
JSON-LD payloads. Numbers (int and float alike) are idealised as `ℚ`;
`bool` is kept separate because Python treats it as a subtype of `int`
in `isinstance` checks. Objects are association lists with string keys
(first occurrence wins, as in a Python dict built by `json.loads`). -/
inductive PyVal where
  | none
  | bool (b : Bool)
  | num (q : ℚ)
  | str (s : String)
  | arr (xs : List PyVal)
  | obj (kvs : List (String × PyVal))
  deriving Repr

/-- Python truthiness (`bool(v)`) on embedded values. -/
def truthy : PyVal → Bool
  | .none => false
  | .bool b => b
  | .num q => q != 0
  | .str s => s != ""
  | .arr xs => !xs.isEmpty
  | .obj kvs => !kvs.isEmpty

/-- Python `dict.get(k)` lookup on an association list (first binding wins). -/
def objGet? (kvs : List (String × PyVal)) (k : String) : Option PyVal :=
  (kvs.find? (fun kv => kv.1 == k)).map (fun kv => kv.2)

/-- Python `v.get(k, d)`: raises `AttributeError` when `v` is not a dict,
otherwise returns the stored value or the default. Errors are `Except.error`. -/
def pyGetD (v : PyVal) (k : String) (d : PyVal) : Except Unit PyVal :=
  match v with
  | .obj kvs => Except.ok ((objGet? kvs k).getD d)
  | _ => Except.error ()

/-- models.py: `BaseImage`. -/
structure BaseImage where
  content_url : String
  description : String
  deriving Repr

/-- models.py: `BaseOffer`. `price_specification: List[dict]` is a list of
parsed JSON objects. -/
structure BaseOffer where
  url : String
  availability : String
  price_specification : List (List (String × PyVal))
  deriving Repr

/-- models.py: the computed field `BaseOffer.price`:
`price_specification[0].get("price")` when the list is non-empty, else
`None`. -/
def BaseOffer.price (o : BaseOffer) : Option PyVal :=
  match o.price_specification with
  | [] => Option.none
  | spec :: _ => objGet? spec "price"

/-- farfetch/domain.py: `ProductVariant` (a `BaseVariant` extended with
`size` and `image`). -/
structure ProductVariant where
  sku : String
  name : String
  size : String
  image : String
  offers : BaseOffer
  deriving Repr

/-- farfetch/domain.py: `FarfetchProduct` (a `BaseProduct` extended with
`color` and `product_group_id`); the inherited pydantic fields are
flattened into one structure. -/
structure FarfetchProduct where
  name : String
  brand : String
  description : String
  url : String
  color : String
  product_group_id : String
  images : List BaseImage
  variants : List ProductVariant
  deriving Repr

/-- The truthiness filter of the comprehension in `BaseProduct.price_range`
(`[v.offers.price for v in self.variants if v.offers.price]`), restricted
to its numeric reading: a stored price that is a non-zero number passes.
A missing price (`None`) and a zero price are falsy and are dropped.
(Non-numeric truthy prices would make Python's `min` raise; theorems about
`price_range` therefore carry a numeric-price hypothesis.) -/
def truthyPrices (vs : List ProductVariant) : List ℚ :=
  vs.filterMap (fun v =>
    match v.offers.price with
    | Option.some (PyVal.num q) => if q = 0 then Option.none else Option.some q
    | _ => Option.none)

/-- Python `min(prices)` on a list of rationals (`None` on the empty list). -/
def listMin : List ℚ → Option ℚ
  | [] => Option.none
  | q :: qs => Option.some (qs.foldl min q)

/-- Python `max(prices)` on a list of rationals (`None` on the empty list). -/
def listMax : List ℚ → Option ℚ
  | [] => Option.none
  | q :: qs => Option.some (qs.foldl max q)

/-- models.py: the computed field `BaseProduct.price_range` (inherited by
`FarfetchProduct`): the `(min, max)` of the truthy variant prices, or
`(None, None)` when the filtered list is empty. -/
def price_range (p : FarfetchProduct) : Option ℚ × Option ℚ :=
  let prices := truthyPrices p.variants
  if prices.isEmpty then (Option.none, Option.none)
  else (listMin prices, listMax prices)

/-- All prices of variants that have one (the claim's "variant offer
prices", with no truthiness filter), numeric reading. -/
def presentPrices (vs : List ProductVariant) : List ℚ :=
  vs.filterMap (fun v =>
    match v.offers.price with
    | Option.some (PyVal.num q) => Option.some q
    | _ => Option.none)

/-- Every variant's stored price is either absent or a number (the data
shape on which Python's `min`/`max` in `price_range` are well defined). -/
def PricesNumeric (p : FarfetchProduct) : Prop :=
  ∀ v ∈ p.variants,
    v.offers.price = Option.none ∨ ∃ q, v.offers.price = Option.some (PyVal.num q)

/-- Claim C2 as stated: `price_range` is `(min, max)` over the prices of
the variants that have a price, and `(None, None)` exactly when no variant
has a price. -/
def C2Statement : Prop :=
  ∀ p : FarfetchProduct, PricesNumeric p →
    (presentPrices p.variants = [] → price_range p = (Option.none, Option.none)) ∧
    (presentPrices p.variants ≠ [] →
      price_range p = (listMin (presentPrices p.variants), listMax (presentPrices p.variants)))

/-- A concrete offer with a stored price of `0` (the shape the HTML
fallback path of `json_parser.py` produces for every variant). -/
def zeroPriceOffer : BaseOffer :=
  { url := "https://www.farfetch.com/item", availability := "InStock",
    price_specification := [[("price", PyVal.num 0)]] }

/-- A product with a single variant whose stored price is `0`. -/
def C2cex : FarfetchProduct :=
  { name := "P", brand := "B", description := "", url := "u", color := "",
    product_group_id := "",
    images := [],
    variants := [{ sku := "s", name := "P | 40", size := "40", image := "",
                   offers := zeroPriceOffer }] }

theorem foldlMin_le (q : ℚ) (qs : List ℚ) : ∀ x ∈ q :: qs, qs.foldl min q ≤ x := by
  induction qs generalizing q with
  | nil =>
    intro x hx
    simp only [List.mem_singleton] at hx
    simp [hx]
  | cons a t ih =>
    intro x hx
    have hstep : (a :: t).foldl min q = t.foldl min (min q a) := rfl
    rw [hstep]
    rcases List.mem_cons.mp hx with hq | hx'
    · exact le_trans (ih (min q a) (min q a) (List.mem_cons_self _ _)) (by rw [hq]; exact min_le_left _ _)
    · rcases List.mem_cons.mp hx' with ha | ht
      · exact le_trans (ih (min q a) (min q a) (List.mem_cons_self _ _)) (by rw [ha]; exact min_le_right _ _)
      · exact ih (min q a) x (List.mem_cons_of_mem _ ht)

theorem foldlMin_mem (q : ℚ) (qs : List ℚ) : qs.foldl min q ∈ q :: qs := by
  induction qs generalizing q with
  | nil => simp
  | cons a t ih =>
    have hstep : (a :: t).foldl min q = t.foldl min (min q a) := rfl
    rw [hstep]
    have h := ih (min q a)
    rcases List.mem_cons.mp h with h0 | h1
    · rcases min_choice q a with hq | ha
      · exact List.mem_cons.mpr (Or.inl (h0.trans hq))
      · exact List.mem_cons.mpr (Or.inr (List.mem_cons.mpr (Or.inl (h0.trans ha))))
    · exact List.mem_cons.mpr (Or.inr (List.mem_cons.mpr (Or.inr h1)))

theorem foldlMax_le (q : ℚ) (qs : List ℚ) : ∀ x ∈ q :: qs, x ≤ qs.foldl max q := by
  induction qs generalizing q with
  | nil =>
    intro x hx
    simp only [List.mem_singleton] at hx
    simp [hx]
  | cons a t ih =>
    intro x hx
    have hstep : (a :: t).foldl max q = t.foldl max (max q a) := rfl
    rw [hstep]
    rcases List.mem_cons.mp hx with hq | hx'
    · exact le_trans (by rw [hq]; exact le_max_left _ _) (ih (max q a) (max q a) (List.mem_cons_self _ _))
    · rcases List.mem_cons.mp hx' with ha | ht
      · exact le_trans (by rw [ha]; exact le_max_right _ _) (ih (max q a) (max q a) (List.mem_cons_self _ _))
      · exact ih (max q a) x (List.mem_cons_of_mem _ ht)

theorem foldlMax_mem (q : ℚ) (qs : List ℚ) : qs.foldl max q ∈ q :: qs := by
  induction qs generalizing q with
  | nil => simp
  | cons a t ih =>
    have hstep : (a :: t).foldl max q = t.foldl max (max q a) := rfl
    rw [hstep]
    have h := ih (max q a)
    rcases List.mem_cons.mp h with h0 | h1
    · rcases max_choice q a with hq | ha
      · exact List.mem_cons.mpr (Or.inl (h0.trans hq))
      · exact List.mem_cons.mpr (Or.inr (List.mem_cons.mpr (Or.inl (h0.trans ha))))
    · exact List.mem_cons.mpr (Or.inr (List.mem_cons.mpr (Or.inr h1)))

/-- C2, counterexample: the claim fails on a product whose single variant
stores the price `0`: the variant has a price, but the comprehension in
`price_range` filters with Python truthiness (`if v.offers.price`), so `0`
is dropped and `price_range` is `(None, None)`. -/
theorem C2_counterexample : ¬ C2Statement := by
  intro h
  have hnum : PricesNumeric C2cex := by
    intro v hv
    simp only [C2cex, List.mem_singleton] at hv
    subst hv
    exact Or.inr ⟨0, rfl⟩
  have hne : presentPrices C2cex.variants ≠ [] := by
    simp [presentPrices, C2cex, zeroPriceOffer, BaseOffer.price, objGet?]
  have h2 := (h C2cex hnum).2 hne
  have hleft : price_range C2cex = (Option.none, Option.none) := by
    simp [price_range, truthyPrices, C2cex, zeroPriceOffer, BaseOffer.price, objGet?]
  have hright :
      (listMin (presentPrices C2cex.variants), listMax (presentPrices C2cex.variants)) =
        ((Option.some (0 : ℚ)), (Option.some (0 : ℚ))) := by
    simp [presentPrices, C2cex, zeroPriceOffer, BaseOffer.price, objGet?, listMin, listMax]
  rw [hleft, hright] at h2
  simp at h2

/-- C2, amended: `price_range` equals `(min, max)` over the truthy variant
prices — the non-`None`, non-zero numeric prices — and `(None, None)`
exactly when no variant has a truthy price (so a lone zero-priced variant
yields `(None, None)`); it is a function of the variant list alone, so no
independently stored value can drift out of sync. The numeric-price
hypothesis scopes the statement to data on which Python's `min`/`max` are
well defined. -/
theorem C2_price_range_amended (p : FarfetchProduct) (hnum : PricesNumeric p) :
    (truthyPrices p.variants = [] → price_range p = (Option.none, Option.none)) ∧
    (∀ q qs, truthyPrices p.variants = q :: qs →
      ∃ m M, price_range p = (Option.some m, Option.some M) ∧
        m ∈ truthyPrices p.variants ∧ M ∈ truthyPrices p.variants ∧
        ∀ x ∈ truthyPrices p.variants, m ≤ x ∧ x ≤ M) ∧
    (∀ p2 : FarfetchProduct, p.variants = p2.variants → price_range p = price_range p2) := by
  refine ⟨?_, ?_, ?_⟩
  · intro hempty
    simp [price_range, hempty]
  · intro q qs hcons
    refine ⟨qs.foldl min q, qs.foldl max q, ?_, ?_, ?_, ?_⟩
    · simp [price_range, hcons, listMin, listMax]
    · rw [hcons]; exact foldlMin_mem q qs
    · rw [hcons]; exact foldlMax_mem q qs
    · intro x hx
      rw [hcons] at hx
      exact ⟨foldlMin_le q qs x hx, foldlMax_le q qs x hx⟩
  · intro p2 hvar
    simp [price_range, truthyPrices, hvar]

/-- A product with three variants, with prices `5`, `2` and `0`. -/
def C2wit : FarfetchProduct :=
  { name := "P", brand := "B", description := "", url := "u", color := "",
    product_group_id := "",
    images := [],
    variants :=
      [{ sku := "a", name := "P | 38", size := "38", image := "",
         offers := { url := "u", availability := "InStock",
                     price_specification := [[("price", PyVal.num 5)]] } },
       { sku := "b", name := "P | 39", size := "39", image := "",
         offers := { url := "u", availability := "InStock",
                     price_specification := [[("price", PyVal.num 2)]] } },
       { sku := "c", name := "P | 40", size := "40", image := "",
         offers := zeroPriceOffer }] }

/-- Witness for `C2_price_range_amended` at a concrete product. -/
theorem C2_price_range_amended_witness :
    (truthyPrices C2wit.variants = [] → price_range C2wit = (Option.none, Option.none)) ∧
    (∀ q qs, truthyPrices C2wit.variants = q :: qs →
      ∃ m M, price_range C2wit = (Option.some m, Option.some M) ∧
        m ∈ truthyPrices C2wit.variants ∧ M ∈ truthyPrices C2wit.variants ∧
        ∀ x ∈ truthyPrices C2wit.variants, m ≤ x ∧ x ≤ M) ∧
    (∀ p2 : FarfetchProduct, C2wit.variants = p2.variants →
      price_range C2wit = price_range p2) :=
  C2_price_range_amended C2wit (by
    intro v hv
    simp only [C2wit, zeroPriceOffer, List.mem_cons, List.mem_singleton, List.not_mem_nil,
      or_false] at hv
    rcases hv with h | h | h <;> subst h
    · exact Or.inr ⟨5, rfl⟩
    · exact Or.inr ⟨2, rfl⟩
    · exact Or.inr ⟨0, rfl⟩)

/-! ## utils.py and the Farfetch extraction chain -/

/-- One pass of `re.sub(r"<[^>]+>", "", s)`: a scanner that drops
`<`…`>` runs with at least one inner character. The second argument
buffers (in reverse) the characters of a potentially open tag. -/
def stripTagsGo : List Char → Option (List Char) → List Char
  | [], Option.none => []
  | [], Option.some buf => buf.reverse
  | c :: rest, Option.none =>
      if c = '<' then stripTagsGo rest (Option.some ['<'])
      else c :: stripTagsGo rest Option.none
  | c :: rest, Option.some buf =>
      if c = '>' then
        if 2 ≤ buf.length then stripTagsGo rest Option.none
        else buf.reverse ++ '>' :: stripTagsGo rest Option.none
      else stripTagsGo rest (Option.some (c :: buf))

/-- utils.py `clean_text` on an actual string: strip, collapse whitespace
runs to single spaces, drop `<...>` tag runs. -/
def cleanTextStr (s : String) : String :=
  let collapsed :=
    String.intercalate " "
      ((s.trim.split (fun c => c.isWhitespace)).filter (fun t => t ≠ ""))
  String.mk (stripTagsGo collapsed.data Option.none)

/-- utils.py `clean_text(text)`: a falsy argument returns `""`; a truthy
string is cleaned; a truthy non-string raises (`re.sub` TypeError). -/
def clean_text (v : PyVal) : Except Unit String :=
  if truthy v = false then Except.ok ""
  else
    match v with
    | PyVal.str s => Except.ok (cleanTextStr s)
    | _ => Except.error ()

/-- utils.py `validate_price`: `isinstance(price, (int, float))` and
`0 <= price <= 10000`. Python `bool` is a subtype of `int`, and both
`True` (1) and `False` (0) lie in range. -/
def validate_price : PyVal → Bool
  | PyVal.num q => decide ((0 : ℚ) ≤ q) && decide (q ≤ 10000)
  | PyVal.bool _ => true
  | _ => false

/-- utils.py `validate_product_data`: `True` iff each of
`name`, `brand`, `description` is present and truthy (the source raises
`ProductValidationError` otherwise; the caller catches it). -/
def validate_product_data (kvs : List (String × PyVal)) : Bool :=
  (["name", "brand", "description"].filter (fun k =>
    match objGet? kvs k with
    | Option.none => true
    | Option.some v => !(truthy v))).isEmpty

/-- The `json_data.get("@type") == "ProductGroup"` test of
`extract_json_ld_from_html`; `.get` on a non-dict raises
`AttributeError`, which the source catches and treats as no match. -/
def isProductGroup : PyVal → Bool
  | PyVal.obj kvs =>
      (match objGet? kvs "@type" with
       | Option.some (PyVal.str s) => s == "ProductGroup"
       | _ => false)
  | _ => false

/-- utils.py `extract_json_ld_from_html`, over the list of
`application/ld+json` script payloads found in the markup: an entry is
`Option.none` when the script has no string body or `json.loads` fails,
`Option.some v` when it parses to `v`. Returns the first ProductGroup
object, or raises `JSONLDNotFoundError` (the single error) otherwise. -/
def extract_json_ld : List (Option PyVal) → Except Unit PyVal
  | [] => Except.error ()
  | Option.none :: rest => extract_json_ld rest
  | Option.some j :: rest =>
      if isProductGroup j then Except.ok j else extract_json_ld rest

/-- html_parser.py `extract_additional_info` result: the five selector
fields; the all-empty record also models the `{}` returned when parsing
raises (every `.get` then yields the same defaults). -/
structure AdditionalInfo where
  title : String
  brand : String
  description : String
  images : List String
  sizes : List String
  deriving Repr

/-- pydantic validation of a `str` field (v2 rejects non-string input). -/
def requireStr : PyVal → Except Unit String
  | PyVal.str s => Except.ok s
  | _ => Except.error ()

/-- pydantic validation of the `List[dict]` field
`price_specification`: every element must be an object. -/
def requireObjList : List PyVal → Except Unit (List (List (String × PyVal)))
  | [] => Except.ok []
  | PyVal.obj kvs :: rest => (requireObjList rest).map (fun l => kvs :: l)
  | _ :: _ => Except.error ()

/-- Python `v[0]`: first element of a non-empty list, first character of
a non-empty string; anything else raises (TypeError/KeyError/IndexError). -/
def subscript0 : PyVal → Except Unit PyVal
  | PyVal.arr (x :: _) => Except.ok x
  | PyVal.str s => if s ≠ "" then Except.ok (PyVal.str (s.take 1)) else Except.error ()
  | _ => Except.error ()

/-- Python iteration over `v` (a `for` over a list yields its elements,
over a dict its keys, over a string its characters; other values raise). -/
def toIterable : PyVal → Except Unit (List PyVal)
  | PyVal.arr xs => Except.ok xs
  | PyVal.obj kvs => Except.ok (kvs.map (fun kv => PyVal.str kv.1))
  | PyVal.str s => Except.ok (s.data.map (fun c => PyVal.str (String.mk [c])))
  | _ => Except.error ()

/-- The price-check prefix of the loop body of
`FarfetchJSONParser._parse_product_variants`: fetch
`offers`/`priceSpecification`, require the specification truthy,
subscript its first entry and read its `price` (default `0`). Returns
`(offers, spec, price)`. -/
def variantPrice (e : PyVal) : Except Unit (PyVal × PyVal × PyVal) := do
  let offers ← pyGetD e "offers" (PyVal.obj [])
  let spec ← pyGetD offers "priceSpecification" (PyVal.arr [])
  if truthy spec = false then Except.error ()
  else do
    let firstSpec ← subscript0 spec
    let priceVal ← pyGetD firstSpec "price" (PyVal.num 0)
    Except.ok (offers, spec, priceVal)

/-- One iteration of the `_parse_product_variants` loop body on a
`hasVariant` entry: the price check, then `BaseOffer` and
`ProductVariant` construction (pydantic validation of each field). Any
raise — modelled as `Except.error` — makes the source `continue`,
skipping the entry. -/
def variantBody (e : PyVal) : Except Unit ProductVariant := do
  let t ← variantPrice e
  if validate_price t.2.2 = false then Except.error ()
  else do
    let urlV ← pyGetD t.1 "url" (PyVal.str "")
    let urlS ← requireStr urlV
    let availV ← pyGetD t.1 "availability" (PyVal.str "InStock")
    let availS ← requireStr availV
    let specL ← (match t.2.1 with
      | PyVal.arr xs => requireObjList xs
      | _ => Except.error ())
    let skuV ← pyGetD e "sku" (PyVal.str "")
    let skuS ← requireStr skuV
    let nameV ← pyGetD e "name" (PyVal.str "")
    let nameS ← clean_text nameV
    let sizeV ← pyGetD e "size" (PyVal.str "")
    let sizeS ← requireStr sizeV
    let imgV ← pyGetD e "image" (PyVal.str "")
    let imgS ← requireStr imgV
    Except.ok { sku := skuS, name := nameS, size := sizeS, image := imgS,
                offers := { url := urlS, availability := availS,
                            price_specification := specL } }

/-- json_parser.py `FarfetchJSONParser._parse_product_variants`: the loop collecting the
entries whose body did not raise or `continue`. -/
def parse_product_variants : List PyVal → List ProductVariant
  | [] => []
  | e :: rest =>
      match variantBody e with
      | Except.ok v => v :: parse_product_variants rest
      | Except.error _ => parse_product_variants rest

/-- The claim's price criterion for a `hasVariant` entry: its price
specification is present (non-empty) and its first entry's price (default
`0`) passes `validate_price`; an entry whose shape makes the lookups
raise counts as not passing. -/
def pricePasses (e : PyVal) : Bool :=
  match variantPrice e with
  | Except.ok t => validate_price t.2.2
  | Except.error _ => false

/-- One iteration of `_parse_product_images` on an `image` entry. -/
def imageBody (e : PyVal) : Except Unit BaseImage := do
  let cuV ← pyGetD e "contentUrl" (PyVal.str "")
  let cuS ← requireStr cuV
  let dV ← pyGetD e "description" (PyVal.str "")
  let dS ← clean_text dV
  Except.ok { content_url := cuS, description := dS }

/-- json_parser.py `FarfetchJSONParser._parse_product_images`. -/
def parse_product_images : List PyVal → List BaseImage
  | [] => []
  | e :: rest =>
      match imageBody e with
      | Except.ok i => i :: parse_product_images rest
      | Except.error _ => parse_product_images rest

/-- The zero-price single-entry specification the HTML fallback attaches
to every variant (`[{"price": 0}]`). -/
def htmlZeroSpec : List (List (String × PyVal)) := [[("price", PyVal.num 0)]]

/-- json_parser.py `FarfetchJSONParser._create_product_from_html`: one variant per
discovered size (or one default variant when no sizes were found), each
with the zero-price specification and the first discovered image. -/
def create_product_from_html (info : AdditionalInfo) (url : String) : FarfetchProduct :=
  let firstImage := info.images.headD ""
  let variants0 := info.sizes.map (fun size =>
    ({ sku := "html-" ++ size, name := info.title ++ " | " ++ size,
       size := size, image := firstImage,
       offers := { url := url, availability := "InStock",
                   price_specification := htmlZeroSpec } } : ProductVariant))
  let variants :=
    if variants0.isEmpty then
      [({ sku := "html-default", name := info.title, size := "", image := firstImage,
          offers := { url := url, availability := "InStock",
                      price_specification := htmlZeroSpec } } : ProductVariant)]
    else variants0
  { name := info.title, brand := info.brand, description := info.description,
    url := url, color := "", product_group_id := "",
    images := info.images.map (fun u => { content_url := u, description := "" }),
    variants := variants }

/-- json_parser.py `FarfetchJSONParser._create_product_from_json` (with
`_extract_product_data` inlined): structured fields preferred with
selector fallbacks via Python `or`, then pydantic validation of the
string fields of `FarfetchProduct`. -/
def create_product_from_json (kvs : List (String × PyVal)) (info : AdditionalInfo)
    (url : String) : Except Unit FarfetchProduct := do
  let nameV ← pyGetD (PyVal.obj kvs) "name" (PyVal.str "")
  let nameC ← clean_text nameV
  let nameS := if nameC ≠ "" then nameC else info.title
  let brandV0 ← pyGetD (PyVal.obj kvs) "brand" (PyVal.obj [])
  let brandV1 ← pyGetD brandV0 "name" (PyVal.str "")
  let brandV := if truthy brandV1 then brandV1 else PyVal.str info.brand
  let descV ← pyGetD (PyVal.obj kvs) "description" (PyVal.str "")
  let descC ← clean_text descV
  let descS := if descC ≠ "" then descC else info.description
  let colorV ← pyGetD (PyVal.obj kvs) "color" (PyVal.str "")
  let pgidV ← pyGetD (PyVal.obj kvs) "productGroupID" (PyVal.str "")
  let imgsV ← pyGetD (PyVal.obj kvs) "image" (PyVal.arr [])
  let imgEntries ← toIterable imgsV
  let varsV ← pyGetD (PyVal.obj kvs) "hasVariant" (PyVal.arr [])
  let varEntries ← toIterable varsV
  let urlV ← pyGetD (PyVal.obj kvs) "url" (PyVal.str url)
  let brandS ← requireStr brandV
  let colorS ← requireStr colorV
  let pgidS ← requireStr pgidV
  let urlS ← requireStr urlV
  Except.ok { name := nameS, brand := brandS, description := descS,
              url := urlS, color := colorS, product_group_id := pgidS,
              images := parse_product_images imgEntries,
              variants := parse_product_variants varEntries }

/-- json_parser.py `FarfetchJSONParser._has_valid_json_data` on the dict
`json_data or {}`: truthy and `@type == "ProductGroup"`. -/
def has_valid_json_data (kvs : List (String × PyVal)) : Bool :=
  !kvs.isEmpty &&
    (match objGet? kvs "@type" with
     | Option.some (PyVal.str s) => s == "ProductGroup"
     | _ => false)

/-- json_parser.py `FarfetchJSONParser.parse_product`: structured path when the data is
valid, HTML-selector path otherwise. -/
def jsonParseProduct (kvs : List (String × PyVal)) (url : String)
    (info : AdditionalInfo) : Except Unit FarfetchProduct :=
  if has_valid_json_data kvs = false then Except.ok (create_product_from_html info url)
  else create_product_from_json kvs info url

/-- scraper.py `FarfetchScraper._extract_json_data`: `extract_json_ld_from_html`
followed by `validate_product_data`; any raise yields `None`. -/
def extractJsonData (scripts : List (Option PyVal)) : Option (List (String × PyVal)) :=
  match extract_json_ld scripts with
  | Except.error _ => Option.none
  | Except.ok j =>
      match j with
      | PyVal.obj kvs => if validate_product_data kvs then Option.some kvs else Option.none
      | _ => Option.none

/-- scraper.py `FarfetchScraper._extract_brand`: the structured `brand.name` when
`json_data` is truthy, the selector brand otherwise. `.get` on a
non-dict `brand` value raises. -/
def extract_brand (jd : Option (List (String × PyVal))) (info : AdditionalInfo) :
    Except Unit PyVal :=
  match jd with
  | Option.some kvs =>
      if kvs.isEmpty then Except.ok (PyVal.str info.brand)
      else do
        let b ← pyGetD (PyVal.obj kvs) "brand" (PyVal.obj [])
        pyGetD b "name" (PyVal.str "")
  | Option.none => Except.ok (PyVal.str info.brand)

/-- Python `brand in self.config.target_brands` (equality against a list
of strings; a non-string brand value is never equal). -/
def targetsContains (targets : List String) : PyVal → Bool
  | PyVal.str s => targets.contains s
  | _ => false

/-- scraper.py `FarfetchScraper._is_target_brand`. -/
def is_target_brand (targets : List String) (jd : Option (List (String × PyVal)))
    (info : AdditionalInfo) : Except Unit Bool :=
  if targets.isEmpty then Except.ok true
  else do
    let b ← extract_brand jd info
    if truthy b = false then Except.ok true
    else Except.ok (targetsContains targets b)

/-- scraper.py `FarfetchScraper.parse_product`: selector info and structured data
are extracted, the brand filter applied, then the JSON-level parse; any
raise in the block is caught and yields `None`. -/
def scraper_parse_product (targets : List String) (scripts : List (Option PyVal))
    (info : AdditionalInfo) (url : String) : Option FarfetchProduct :=
  match (do
    let jd := extractJsonData scripts
    let ok ← is_target_brand targets jd info
    if ok = false then Except.ok Option.none
    else do
      let p ← jsonParseProduct (jd.getD []) url info
      Except.ok (Option.some p) : Except Unit (Option FarfetchProduct)) with
  | Except.ok r => r
  | Except.error _ => Option.none

/-! ## C9: variant filtering in the structured path -/

/-- A key that, when present, holds a string. -/
def isStrOrAbsent (kvs : List (String × PyVal)) (k : String) : Bool :=
  match objGet? kvs k with
  | Option.none => true
  | Option.some (PyVal.str _) => true
  | _ => false

/-- A `hasVariant` entry whose fields have the types pydantic expects:
`offers` an object when present, its `priceSpecification` a list of
objects when present, the string fields strings when present, and `name`
a string or falsy (so `clean_text` does not raise). -/
def wellTypedVariant (e : PyVal) : Bool :=
  match e with
  | PyVal.obj kvs =>
      (match objGet? kvs "offers" with
       | Option.none => true
       | Option.some (PyVal.obj okvs) =>
           (match objGet? okvs "priceSpecification" with
            | Option.none => true
            | Option.some (PyVal.arr xs) =>
                xs.all (fun x => match x with | PyVal.obj _ => true | _ => false)
            | _ => false)
           && isStrOrAbsent okvs "url" && isStrOrAbsent okvs "availability"
       | _ => false)
      && isStrOrAbsent kvs "sku"
      && (match objGet? kvs "name" with
          | Option.none => true
          | Option.some (PyVal.str _) => true
          | Option.some v => !(truthy v))
      && isStrOrAbsent kvs "size" && isStrOrAbsent kvs "image"
  | _ => false

/-- Claim C9 as stated: exactly the entries whose first
price-specification price passes the sanity check become variants; no
other entries are dropped. -/
def C9Statement : Prop :=
  ∀ entries : List PyVal,
    (parse_product_variants entries).length = (entries.filter pricePasses).length

/-- A variant entry whose price passes the check but whose `name` is a
(truthy) number, so that `clean_text` raises during construction and the
`except`/`continue` in `_parse_product_variants` drops it. -/
def C9cexEntry : PyVal :=
  PyVal.obj
    [("offers", PyVal.obj
        [("priceSpecification", PyVal.arr [PyVal.obj [("price", PyVal.num 100)]])]),
     ("name", PyVal.num 5)]

theorem exceptBindError {α β : Type} (u : Unit) (f : α → Except Unit β) :
    (Except.error u >>= f) = Except.error u := rfl

theorem exceptBindOk {α β : Type} (a : α) (f : α → Except Unit β) :
    (Except.ok a >>= f) = f a := rfl

/-- C9, counterexample: `C9cexEntry` passes the price check but is
dropped, because `ProductVariant` construction raises on its numeric
`name`; „no other variant entries are dropped" fails. -/
theorem C9_counterexample : ¬ C9Statement := fun h =>
  absurd (h [C9cexEntry]) (by decide)

theorem requireObjList_exists (xs : List PyVal)
    (h : xs.all (fun x => match x with | PyVal.obj _ => true | _ => false) = true) :
    ∃ l, requireObjList xs = Except.ok l := by
  induction xs with
  | nil => exact ⟨[], rfl⟩
  | cons x rest ih =>
    rw [List.all_cons, Bool.and_eq_true] at h
    obtain ⟨l, hl⟩ := ih h.2
    cases x with
    | obj kvs => exact ⟨kvs :: l, by simp [requireObjList, hl, Except.map]⟩
    | none => exact absurd h.1 (by simp)
    | bool b => exact absurd h.1 (by simp)
    | num q => exact absurd h.1 (by simp)
    | str s => exact absurd h.1 (by simp)
    | arr ys => exact absurd h.1 (by simp)

theorem requireStr_getD_ok (kvs : List (String × PyVal)) (k : String) (d : String)
    (h : isStrOrAbsent kvs k = true) :
    ∃ s, requireStr ((objGet? kvs k).getD (PyVal.str d)) = Except.ok s := by
  unfold isStrOrAbsent at h
  cases hg : objGet? kvs k with
  | none => exact ⟨d, by simp [hg, requireStr]⟩
  | some v =>
    rw [hg] at h
    cases v with
    | str s => exact ⟨s, by simp [hg, requireStr]⟩
    | none => exact absurd h (by simp)
    | bool b => exact absurd h (by simp)
    | num q => exact absurd h (by simp)
    | arr ys => exact absurd h (by simp)
    | obj ks => exact absurd h (by simp)

theorem clean_text_name_ok (kvs : List (String × PyVal))
    (h : (match objGet? kvs "name" with
          | Option.none => true
          | Option.some (PyVal.str _) => true
          | Option.some v => !(truthy v)) = true) :
    ∃ s, clean_text ((objGet? kvs "name").getD (PyVal.str "")) = Except.ok s := by
  cases hg : objGet? kvs "name" with
  | none => exact ⟨"", by simp [hg, clean_text, truthy]⟩
  | some v =>
    rw [hg] at h
    cases v with
    | str s =>
      refine ⟨if truthy (PyVal.str s) = false then "" else cleanTextStr s, ?_⟩
      by_cases ht : truthy (PyVal.str s) = false <;> simp [hg, clean_text, ht]
    | none => exact ⟨"", by simp [hg, clean_text, truthy]⟩
    | bool b =>
      have h0 : b = false := by simpa [truthy] using h
      exact ⟨"", by simp [hg, clean_text, truthy, h0]⟩
    | num q =>
      have h0 : q = 0 := by simpa [truthy] using h
      exact ⟨"", by simp [hg, clean_text, truthy, h0]⟩
    | arr ys =>
      have h0 : ys = [] := by simpa [truthy] using h
      exact ⟨"", by simp [hg, clean_text, truthy, h0]⟩
    | obj ks =>
      have h0 : ks = [] := by simpa [truthy] using h
      exact ⟨"", by simp [hg, clean_text, truthy, h0]⟩

theorem pyGetD_ok_shape (v : PyVal) (k : String) (d res : PyVal)
    (h : pyGetD v k d = Except.ok res) :
    ∃ kvs, v = PyVal.obj kvs ∧ res = (objGet? kvs k).getD d := by
  cases v <;> simp [pyGetD] at h
  case obj kvs => exact ⟨kvs, rfl, h.symm⟩

theorem variantPrice_shape (e : PyVal) (offers spec priceVal : PyVal)
    (h : variantPrice e = Except.ok (offers, spec, priceVal)) :
    ∃ kvs okvs, e = PyVal.obj kvs ∧
      offers = PyVal.obj okvs ∧
      offers = (objGet? kvs "offers").getD (PyVal.obj []) ∧
      spec = (objGet? okvs "priceSpecification").getD (PyVal.arr []) ∧
      truthy spec = true := by
  unfold variantPrice at h
  cases h1 : pyGetD e "offers" (PyVal.obj []) with
  | error u => rw [h1, exceptBindError] at h; exact absurd h (by simp)
  | ok o0 =>
    rw [h1] at h
    simp only [exceptBindOk] at h
    obtain ⟨kvs, hekvs, ho0⟩ := pyGetD_ok_shape e "offers" (PyVal.obj []) o0 h1
    cases h2 : pyGetD o0 "priceSpecification" (PyVal.arr []) with
    | error u => rw [h2, exceptBindError] at h; exact absurd h (by simp)
    | ok s0 =>
      rw [h2] at h
      simp only [exceptBindOk] at h
      obtain ⟨okvs, ho0obj, hs0⟩ := pyGetD_ok_shape o0 "priceSpecification" (PyVal.arr []) s0 h2
      by_cases hts : truthy s0 = false
      · rw [if_pos hts] at h; exact absurd h (by simp)
      · rw [if_neg hts] at h
        cases h3 : subscript0 s0 with
        | error u => rw [h3, exceptBindError] at h; exact absurd h (by simp)
        | ok fs =>
          rw [h3] at h
          simp only [exceptBindOk] at h
          cases h4 : pyGetD fs "price" (PyVal.num 0) with
          | error u => rw [h4, exceptBindError] at h; exact absurd h (by simp)
          | ok pv =>
            rw [h4] at h
            simp only [exceptBindOk, Except.ok.injEq, Prod.mk.injEq] at h
            obtain ⟨hoe, hse, hpe⟩ := h
            refine ⟨kvs, okvs, hekvs, ?_, ?_, ?_, ?_⟩
            · rw [← hoe]; exact ho0obj
            · rw [← hoe]; exact ho0
            · rw [← hse]; exact hs0
            · rw [← hse]; simpa using hts

theorem variantBody_ok_of_wellTyped (e : PyVal) (hwt : wellTypedVariant e = true)
    (offers spec priceVal : PyVal)
    (hvp : variantPrice e = Except.ok (offers, spec, priceVal))
    (hval : validate_price priceVal = true) :
    ∃ v, variantBody e = Except.ok v := by
  obtain ⟨kvs, okvs, hekvs, hoobj, hodef, hspec, hts⟩ :=
    variantPrice_shape e offers spec priceVal hvp
  subst hekvs
  unfold wellTypedVariant at hwt
  simp only [Bool.and_eq_true] at hwt
  obtain ⟨⟨⟨⟨hoffers, hsku⟩, hname⟩, hsize⟩, himage⟩ := hwt
  -- the offers object is well typed: derive field facts about okvs
  have hok : (match objGet? okvs "priceSpecification" with
              | Option.none => true
              | Option.some (PyVal.arr xs) =>
                  xs.all (fun x => match x with | PyVal.obj _ => true | _ => false)
              | _ => false) = true ∧
             isStrOrAbsent okvs "url" = true ∧ isStrOrAbsent okvs "availability" = true := by
    cases hgo : objGet? kvs "offers" with
    | none =>
      have : PyVal.obj okvs = PyVal.obj [] := by rw [← hoobj, hodef, hgo]; rfl
      have hnil : okvs = [] := by injection this
      subst hnil
      exact ⟨rfl, rfl, rfl⟩
    | some w =>
      rw [hgo] at hoffers hodef
      have hw : w = PyVal.obj okvs := by rw [← hoobj, hodef]; rfl
      subst hw
      simp only [Bool.and_eq_true] at hoffers
      exact ⟨hoffers.1.1, hoffers.1.2, hoffers.2⟩
  obtain ⟨hspecTyped, hurl, havail⟩ := hok
  -- the specification is a non-empty list of objects
  obtain ⟨xs, hspecArr, hxsAll⟩ :
      ∃ xs, spec = PyVal.arr xs ∧
        xs.all (fun x => match x with | PyVal.obj _ => true | _ => false) = true := by
    cases hgs : objGet? okvs "priceSpecification" with
    | none =>
      rw [hgs] at hspec
      exact absurd (hspec ▸ hts) (by simp [truthy])
    | some sv =>
      rw [hgs] at hspec hspecTyped
      cases sv with
      | arr xs => exact ⟨xs, by simpa using hspec, by simpa using hspecTyped⟩
      | none => exact absurd hspecTyped (by simp)
      | bool b => exact absurd hspecTyped (by simp)
      | num q => exact absurd hspecTyped (by simp)
      | str s => exact absurd hspecTyped (by simp)
      | obj ks => exact absurd hspecTyped (by simp)
  -- assemble the construction chain
  obtain ⟨us, hus⟩ := requireStr_getD_ok okvs "url" "" hurl
  obtain ⟨avs, havs⟩ := requireStr_getD_ok okvs "availability" "InStock" havail
  obtain ⟨specL, hspecL⟩ := requireObjList_exists xs hxsAll
  obtain ⟨ss, hss⟩ := requireStr_getD_ok kvs "sku" "" hsku
  obtain ⟨ns, hns⟩ := clean_text_name_ok kvs hname
  obtain ⟨zs, hzs⟩ := requireStr_getD_ok kvs "size" "" hsize
  obtain ⟨is', his⟩ := requireStr_getD_ok kvs "image" "" himage
  have hu1 : pyGetD offers "url" (PyVal.str "") =
      Except.ok ((objGet? okvs "url").getD (PyVal.str "")) := by rw [hoobj]; rfl
  have ha1 : pyGetD offers "availability" (PyVal.str "InStock") =
      Except.ok ((objGet? okvs "availability").getD (PyVal.str "InStock")) := by rw [hoobj]; rfl
  have hs1 : pyGetD (PyVal.obj kvs) "sku" (PyVal.str "") =
      Except.ok ((objGet? kvs "sku").getD (PyVal.str "")) := rfl
  have hn1 : pyGetD (PyVal.obj kvs) "name" (PyVal.str "") =
      Except.ok ((objGet? kvs "name").getD (PyVal.str "")) := rfl
  have hz1 : pyGetD (PyVal.obj kvs) "size" (PyVal.str "") =
      Except.ok ((objGet? kvs "size").getD (PyVal.str "")) := rfl
  have hi1 : pyGetD (PyVal.obj kvs) "image" (PyVal.str "") =
      Except.ok ((objGet? kvs "image").getD (PyVal.str "")) := rfl
  unfold variantBody
  rw [hvp]
  simp only [exceptBindOk]
  rw [if_neg (by simp [hval])]
  simp only [hu1, exceptBindOk, hus, ha1, havs, hspecArr, hspecL, hs1, hss, hn1, hns,
    hz1, hzs, hi1, his]
  exact ⟨_, rfl⟩

/-- C9, amended: the collected variants are exactly the entries whose
whole loop body succeeds; a successful body implies the price check
passed (entries with a missing specification or an invalid price are
always skipped); and for entries whose fields are well typed the price
check is also sufficient — but an entry whose price passes can still be
dropped when a later field fails pydantic/`clean_text` validation. -/
theorem C9_variants_amended (entries : List PyVal) :
    parse_product_variants entries =
      entries.filterMap (fun e => (variantBody e).toOption) ∧
    (∀ e : PyVal, (∃ v, variantBody e = Except.ok v) → pricePasses e = true) ∧
    (∀ e : PyVal, wellTypedVariant e = true →
      ((∃ v, variantBody e = Except.ok v) ↔ pricePasses e = true)) := by
  refine ⟨?_, ?_, ?_⟩
  · induction entries with
    | nil => rfl
    | cons e rest ih =>
      cases hb : variantBody e <;>
        simp [parse_product_variants, hb, List.filterMap_cons, Except.toOption, ih]
  · intro e hex
    obtain ⟨v, hv⟩ := hex
    unfold variantBody at hv
    cases hvp : variantPrice e with
    | error u => rw [hvp, exceptBindError] at hv; exact absurd hv (by simp)
    | ok t =>
      obtain ⟨offers, spec, priceVal⟩ := t
      rw [hvp] at hv
      simp only [exceptBindOk] at hv
      unfold pricePasses
      rw [hvp]
      by_cases hval : validate_price priceVal = false
      · rw [if_pos hval] at hv; exact absurd hv (by simp)
      · simpa using hval
  · intro e hwt
    constructor
    · intro hex
      obtain ⟨v, hv⟩ := hex
      unfold variantBody at hv
      cases hvp : variantPrice e with
      | error u => rw [hvp, exceptBindError] at hv; exact absurd hv (by simp)
      | ok t =>
        obtain ⟨offers, spec, priceVal⟩ := t
        rw [hvp, exceptBindOk] at hv
        unfold pricePasses
        rw [hvp]
        by_cases hval : validate_price priceVal = false
        · rw [if_pos hval] at hv; exact absurd hv (by simp)
        · simpa using hval
    · intro hpp
      unfold pricePasses at hpp
      cases hvp : variantPrice e with
      | error u => rw [hvp] at hpp; exact absurd hpp (by simp)
      | ok t =>
        obtain ⟨offers, spec, priceVal⟩ := t
        rw [hvp] at hpp
        exact variantBody_ok_of_wellTyped e hwt offers spec priceVal hvp hpp

/-- A well-typed `hasVariant` entry with a valid price. -/
def C9okEntry : PyVal :=
  PyVal.obj
    [("sku", PyVal.str "S1"), ("name", PyVal.str "Shoe"), ("size", PyVal.str "42"),
     ("image", PyVal.str "img"),
     ("offers", PyVal.obj
        [("url", PyVal.str "u"), ("availability", PyVal.str "InStock"),
         ("priceSpecification", PyVal.arr
            [PyVal.obj [("price", PyVal.num 120), ("priceCurrency", PyVal.str "EUR")]])])]

/-- Witness for `C9_variants_amended` at a concrete well-typed entry. -/
theorem C9_variants_amended_witness : ∃ v, variantBody C9okEntry = Except.ok v :=
  ((C9_variants_amended [C9okEntry]).2.2 C9okEntry (by decide)).mpr (by decide)

/-! ## C8: fallback to the selector path -/

theorem extract_json_ld_none (scripts : List (Option PyVal))
    (h : ∀ j ∈ scripts, ∀ v, j = Option.some v → isProductGroup v = false) :
    extract_json_ld scripts = Except.error () := by
  induction scripts with
  | nil => rfl
  | cons s rest ih =>
    have ihrest := ih (fun j hj v hv => h j (List.mem_cons_of_mem _ hj) v hv)
    cases s with
    | none => simpa [extract_json_ld] using ihrest
    | some v =>
      have hfalse := h (Option.some v) (List.mem_cons_self _ _) v rfl
      simpa [extract_json_ld, hfalse] using ihrest

theorem html_variants_sizes (info : AdditionalInfo) (url : String) (sizes : List String) :
    (sizes.map (fun size =>
      ({ sku := "html-" ++ size, name := info.title ++ " | " ++ size,
         size := size, image := info.images.headD "",
         offers := { url := url, availability := "InStock",
                     price_specification := htmlZeroSpec } } : ProductVariant))).map
      (fun v => v.size) = sizes := by
  induction sizes with
  | nil => rfl
  | cons s rest ih => simp only [List.map_cons, ih]

theorem html_variant_shape (info : AdditionalInfo) (url : String) (v : ProductVariant)
    (hv : v ∈ (create_product_from_html info url).variants) :
    v.offers.price_specification = htmlZeroSpec ∧ v.image = info.images.headD "" := by
  simp only [create_product_from_html] at hv
  cases hs : info.sizes with
  | nil =>
    simp only [hs, List.map_nil, List.isEmpty_nil, if_true] at hv
    rw [List.mem_singleton] at hv
    subst hv
    exact ⟨rfl, rfl⟩
  | cons s rest =>
    simp only [hs] at hv
    rw [if_neg (by simp)] at hv
    obtain ⟨size, hmem, hveq⟩ := List.mem_map.mp hv
    subst hveq
    exact ⟨rfl, rfl⟩

/-- C8: with no well-formed ProductGroup block among the script payloads,
`extract_json_ld_from_html` raises `JSONLDNotFoundError` (signalled as
`Except.error`, not a batch failure), the scraper falls back to the
selector-derived record, and the assembled product has exactly one
variant per discovered size label (a single default variant when no sizes
were found), each with a zero price and the first discovered image. The
`hbrand` hypothesis says the brand filter passes (e.g. no allow-list). -/
theorem C8_fallback (targets : List String) (scripts : List (Option PyVal))
    (info : AdditionalInfo) (url : String)
    (hnoPG : ∀ j ∈ scripts, ∀ v, j = Option.some v → isProductGroup v = false)
    (hbrand : is_target_brand targets Option.none info = Except.ok true) :
    extract_json_ld scripts = Except.error () ∧
    scraper_parse_product targets scripts info url =
      Option.some (create_product_from_html info url) ∧
    (create_product_from_html info url).variants.map (fun v => v.size) =
      (if info.sizes.isEmpty then [""] else info.sizes) ∧
    (∀ v ∈ (create_product_from_html info url).variants,
      BaseOffer.price v.offers = Option.some (PyVal.num 0) ∧
      v.image = info.images.headD "") := by
  have hjld : extract_json_ld scripts = Except.error () := extract_json_ld_none scripts hnoPG
  have hjd : extractJsonData scripts = Option.none := by simp [extractJsonData, hjld]
  refine ⟨hjld, ?_, ?_, ?_⟩
  · unfold scraper_parse_product
    rw [hjd]
    simp [hbrand, exceptBindOk, jsonParseProduct, has_valid_json_data]
  · by_cases hsz : info.sizes.isEmpty
    · have hnil : info.sizes = [] := by simpa using hsz
      simp [create_product_from_html, hnil]
    · have hne : info.sizes ≠ [] := by simpa using hsz
      cases hs : info.sizes with
      | nil => exact absurd hs hne
      | cons s rest =>
        simp only [create_product_from_html, hs]
        rw [if_neg (by simp), if_neg (by simp)]
        exact html_variants_sizes info url (s :: rest)
  · intro v hv
    have hshape := html_variant_shape info url v hv
    refine ⟨?_, hshape.2⟩
    unfold BaseOffer.price
    rw [hshape.1]
    rfl

/-- Concrete scripts with no ProductGroup block: a failed parse and a
JSON array payload. -/
def C8scripts : List (Option PyVal) :=
  [Option.none, Option.some (PyVal.arr [PyVal.str "x"]),
   Option.some (PyVal.obj [("@type", PyVal.str "BreadcrumbList")])]

/-- Concrete selector record with two sizes and one image. -/
def C8info : AdditionalInfo :=
  { title := "Sneaker", brand := "BrandX", description := "desc",
    images := ["https://img/1.jpg"], sizes := ["S", "M"] }

/-- Witness for `C8_fallback` at concrete inputs. -/
theorem C8_fallback_witness :
    scraper_parse_product [] C8scripts C8info "https://www.farfetch.com/p" =
      Option.some (create_product_from_html C8info "https://www.farfetch.com/p") :=
  (C8_fallback [] C8scripts C8info "https://www.farfetch.com/p"
    (by
      intro j hj v hv
      simp only [C8scripts, List.mem_cons, List.not_mem_nil, or_false] at hj
      rcases hj with h1 | h2 | h3
      · subst h1; exact absurd hv (by simp)
      · subst h2
        have : v = PyVal.arr [PyVal.str "x"] := by injection hv.symm
        subst this; rfl
      · subst h3
        have : v = PyVal.obj [("@type", PyVal.str "BreadcrumbList")] := by injection hv.symm
        subst this; rfl)
    rfl).2.1

/-! ## C10: brand filtering -/

/-- C10: (1) with a non-empty allow-list and a truthy resolved brand not
in the list, the parse yields `None` (the product is withheld, not a
`Success`); (2) with an empty allow-list, or an empty (falsy) resolved
brand, the outcome is exactly what it would be with no allow-list at all
— the product is not brand-filtered. The resolved brand is the
structured `brand.name` when structured data was accepted, else the
selector brand (`extract_brand`). -/
theorem C10_brand_filter (targets : List String) (scripts : List (Option PyVal))
    (info : AdditionalInfo) (url : String) :
    (∀ b, extract_brand (extractJsonData scripts) info = Except.ok b →
      truthy b = true → targets ≠ [] → targetsContains targets b = false →
      scraper_parse_product targets scripts info url = Option.none) ∧
    ((targets = [] ∨
      ∃ b, extract_brand (extractJsonData scripts) info = Except.ok b ∧ truthy b = false) →
      scraper_parse_product targets scripts info url =
        scraper_parse_product [] scripts info url) := by
  constructor
  · intro b hb htruthy hne hcontains
    unfold scraper_parse_product
    have hitb : is_target_brand targets (extractJsonData scripts) info = Except.ok false := by
      unfold is_target_brand
      rw [if_neg (by simpa using hne)]
      rw [hb]
      simp [exceptBindOk, htruthy, hcontains]
    simp [hitb, exceptBindOk]
  · intro hcase
    have hitb : is_target_brand targets (extractJsonData scripts) info = Except.ok true := by
      rcases hcase with hempty | ⟨b, hb, hfalsy⟩
      · subst hempty; rfl
      · unfold is_target_brand
        by_cases hte : targets.isEmpty
        · rw [if_pos hte]
        · rw [if_neg hte, hb]
          simp [exceptBindOk, hfalsy]
    have hitb0 : is_target_brand [] (extractJsonData scripts) info = Except.ok true := rfl
    unfold scraper_parse_product
    simp only [hitb, hitb0]

/-- Concrete scripts holding an accepted ProductGroup block whose brand
is `Gucci`. -/
def C10scripts : List (Option PyVal) :=
  [Option.some (PyVal.obj
    [("@type", PyVal.str "ProductGroup"), ("name", PyVal.str "Bag"),
     ("brand", PyVal.obj [("name", PyVal.str "Gucci")]),
     ("description", PyVal.str "leather")])]

/-- Witness for `C10_brand_filter`: a Gucci product against a
`["Nike"]` allow-list is withheld. -/
theorem C10_brand_filter_witness :
    scraper_parse_product ["Nike"] C10scripts C8info "u" = Option.none :=
  (C10_brand_filter ["Nike"] C10scripts C8info "u").1 (PyVal.str "Gucci") rfl rfl
    (by simp) rfl

/-! ## C1: the batch loop of base_scraper.py -/

/-- base_scraper.py `BaseScraper.scrape_product`, with the overridable
site hooks as parameters: `validate` is `validate_url` (a failure raises
`URLValidationError`), `fetch` is `http_client.get` (which may raise, or
return a falsy page), `parse` is the abstract `parse_product` (which may
raise — re-raised as `ParsingError` — or return `None`). -/
def scrape_product (validate : String → Bool)
    (fetch : String → Except Unit (Option String))
    (parse : String → String → Except Unit (Option FarfetchProduct))
    (url : String) : Except Unit (Option FarfetchProduct) :=
  if validate url = false then Except.error ()
  else
    match fetch url with
    | Except.error e => Except.error e
    | Except.ok html? =>
        match html? with
        | Option.none => Except.ok Option.none
        | Option.some html =>
            if html = "" then Except.ok Option.none
            else
              match parse html url with
              | Except.error _ => Except.error ()
              | Except.ok p? => Except.ok p?

/-- base_scraper.py `BaseScraper.scrape_products`: the per-URL loop. A
raised per-URL exception is caught (and logged) and the loop continues; a
truthy product is appended; the inter-item sleep affects time only. -/
def scrape_products (validate : String → Bool)
    (fetch : String → Except Unit (Option String))
    (parse : String → String → Except Unit (Option FarfetchProduct)) :
    List String → List FarfetchProduct
  | [] => []
  | url :: rest =>
      match scrape_product validate fetch parse url with
      | Except.ok (Option.some p) => p :: scrape_products validate fetch parse rest
      | _ => scrape_products validate fetch parse rest

/-- Claim C1 as stated: the batch returns one outcome per input URL. -/
def C1Statement : Prop :=
  ∀ (validate : String → Bool) (fetch : String → Except Unit (Option String))
    (parse : String → String → Except Unit (Option FarfetchProduct))
    (urls : List String),
    (scrape_products validate fetch parse urls).length = urls.length

/-- C1, counterexample: `scrape_products` returns `List[BaseProduct]`
containing only the successfully extracted products — there is no
per-URL outcome value at all. A single URL failing validation yields an
empty result list, not a one-element list of `Failed`. -/
theorem C1_counterexample : ¬ C1Statement := fun h =>
  absurd
    (h (fun _ => false) (fun _ => Except.ok (Option.some "<html>"))
      (fun _ _ => Except.ok Option.none) ["https://www.farfetch.com/a"])
    (by decide)

/-- C1, amended: the batch always completes; each URL contributes its own
successfully parsed product (and nothing else) at its input position, so
per-URL exceptions are swallowed, processing continues, and the output is
the order-preserving list of successes — of length at most, not equal to,
the number of input URLs. -/
theorem C1_batch_amended (validate : String → Bool)
    (fetch : String → Except Unit (Option String))
    (parse : String → String → Except Unit (Option FarfetchProduct))
    (urls : List String) :
    scrape_products validate fetch parse urls =
      urls.filterMap (fun url =>
        match scrape_product validate fetch parse url with
        | Except.ok (Option.some p) => Option.some p
        | _ => Option.none) ∧
    (scrape_products validate fetch parse urls).length ≤ urls.length := by
  have hfm : scrape_products validate fetch parse urls =
      urls.filterMap (fun url =>
        match scrape_product validate fetch parse url with
        | Except.ok (Option.some p) => Option.some p
        | _ => Option.none) := by
    induction urls with
    | nil => rfl
    | cons u rest ih =>
      cases h : scrape_product validate fetch parse u with
      | error e => simp [scrape_products, h, List.filterMap_cons, ih]
      | ok p? =>
          cases p? with
          | none => simp [scrape_products, h, List.filterMap_cons, ih]
          | some p => simp [scrape_products, h, List.filterMap_cons, ih]
  exact ⟨hfm, by rw [hfm]; exact List.length_filterMap_le _ _⟩

/-! ## C3/C4: the retry loop of async_http_client.py -/

/-- The outcome of one attempt of the loop body of
`AsyncHTTPClient.get`: the rendered content on success; an
`asyncio.TimeoutError`; a navigation response with the given status
`>= 400` (raised as `HTTPError` unless the 403 fallback intercepts it);
or some other exception. -/
inductive AttemptRes where
  | ok (content : String)
  | timeout
  | status (code : ℕ)
  | exc
  deriving Repr, DecidableEq

/-- Observable events of a `get` run: the main `page.goto` of attempt
`k`, the extra `page.goto` inside `_try_alternative_strategy` after a
403 on attempt `k`, and `asyncio.sleep(secs)` calls. -/
inductive FetchEv where
  | nav (attempt : ℕ)
  | fallbackNav (attempt : ℕ)
  | sleep (secs : ℚ)
  deriving Repr, DecidableEq

/-- The errors surfaced on retry exhaustion, each carrying the URL
(`ScraperTimeoutError` and `HTTPError` in exceptions.py). -/
inductive FetchErr where
  | timeoutErr (url : String)
  | httpErr (url : String)
  deriving Repr, DecidableEq

/-- The randomness of a run: the per-attempt outcome, the
`random.uniform(0, 2)` backoff jitter, and the `random.uniform(3, 6)`
pause of the alternative strategy. -/
structure FetchOracle where
  att : ℕ → AttemptRes
  backoffJitter : ℕ → ℚ
  fallbackPause : ℕ → ℚ

/-- The retry settings of `BaseScraperConfig` used by `get`. -/
structure RetryCfg where
  maxRetries : ℕ
  retryDelay : ℚ

/-- The loop of `AsyncHTTPClient.get`: `fuel` is the number of remaining
iterations of `for attempt in range(max_retries)` and `k` the current
attempt index. A 403 on a non-final attempt runs
`_try_alternative_strategy` (pause + extra navigation) and `continue`s —
with no backoff sleep; a timeout or any other exception on a non-final
attempt sleeps `retry_delay * 2**attempt + uniform(0, 2)`; the final
attempt surfaces `TimeoutError` for a timeout and `HTTPError` otherwise.
An exhausted loop falls through to `return None`. -/
def getAux (cfg : RetryCfg) (o : FetchOracle) (url : String) :
    ℕ → ℕ → Except FetchErr (Option String) × List FetchEv
  | 0, _ => (Except.ok Option.none, [])
  | fuel + 1, k =>
      match o.att k with
      | AttemptRes.ok c => (Except.ok (Option.some c), [FetchEv.nav k])
      | AttemptRes.timeout =>
          if k + 1 < cfg.maxRetries then
            let r := getAux cfg o url fuel (k + 1)
            (r.1, FetchEv.nav k ::
              FetchEv.sleep (cfg.retryDelay * 2 ^ k + o.backoffJitter k) :: r.2)
          else (Except.error (FetchErr.timeoutErr url), [FetchEv.nav k])
      | AttemptRes.status n =>
          if n = 403 ∧ k + 1 < cfg.maxRetries then
            let r := getAux cfg o url fuel (k + 1)
            (r.1, FetchEv.nav k :: FetchEv.sleep (o.fallbackPause k) ::
              FetchEv.fallbackNav k :: r.2)
          else
            if k + 1 < cfg.maxRetries then
              let r := getAux cfg o url fuel (k + 1)
              (r.1, FetchEv.nav k ::
                FetchEv.sleep (cfg.retryDelay * 2 ^ k + o.backoffJitter k) :: r.2)
            else (Except.error (FetchErr.httpErr url), [FetchEv.nav k])
      | AttemptRes.exc =>
          if k + 1 < cfg.maxRetries then
            let r := getAux cfg o url fuel (k + 1)
            (r.1, FetchEv.nav k ::
              FetchEv.sleep (cfg.retryDelay * 2 ^ k + o.backoffJitter k) :: r.2)
          else (Except.error (FetchErr.httpErr url), [FetchEv.nav k])

/-- Function `AsyncHTTPClient.get(url)`: the loop started with the full budget. -/
def client_get (cfg : RetryCfg) (o : FetchOracle) (url : String) :
    Except FetchErr (Option String) × List FetchEv :=
  getAux cfg o url cfg.maxRetries 0

/-- Number of loop attempts (main navigations) in a trace. -/
def navCount (tr : List FetchEv) : ℕ :=
  tr.countP (fun e => match e with | FetchEv.nav _ => true | _ => false)

/-- The sleeps of a trace, paired with the attempt whose failure caused
them (the sleep directly follows that attempt's navigation). -/
def attemptSleeps : List FetchEv → List (ℕ × ℚ)
  | FetchEv.nav k :: FetchEv.sleep d :: rest => (k, d) :: attemptSleeps rest
  | _ :: rest => attemptSleeps rest
  | [] => []

/-- Statuses delivered by the oracle are HTTP error statuses (the
`status` constructor models the `response.status >= 400` raise). -/
def StatusesWF (o : FetchOracle) : Prop :=
  ∀ k n, o.att k = AttemptRes.status n → 400 ≤ n

/-- The backoff jitter draws lie in the support of `uniform(0, 2)`. -/
def JitterWF (o : FetchOracle) : Prop :=
  ∀ k, 0 ≤ o.backoffJitter k ∧ o.backoffJitter k ≤ 2

/-- The fallback pause draws lie in the support of `uniform(3, 6)`. -/
def FallbackWF (o : FetchOracle) : Prop :=
  ∀ k, 3 ≤ o.fallbackPause k ∧ o.fallbackPause k ≤ 6

/-- Claim C3 as stated: at most `max_retries` attempts; every
inter-attempt wait equals `retry_delay * 2**attempt` plus a jitter in
`[0, 2]`; exhaustion raises `TimeoutError` for a load timeout and
`HTTPError` otherwise, carrying the URL. -/
def C3Statement : Prop :=
  ∀ (cfg : RetryCfg) (o : FetchOracle) (url : String),
    StatusesWF o → JitterWF o → FallbackWF o →
    navCount (client_get cfg o url).2 ≤ cfg.maxRetries ∧
    (∀ k d, (k, d) ∈ attemptSleeps (client_get cfg o url).2 →
      ∃ j, 0 ≤ j ∧ j ≤ 2 ∧ d = cfg.retryDelay * 2 ^ k + j) ∧
    (∀ er, (client_get cfg o url).1 = Except.error er →
      (er = FetchErr.timeoutErr url ∨ er = FetchErr.httpErr url) ∧
      (er = FetchErr.timeoutErr url ↔
        o.att (cfg.maxRetries - 1) = AttemptRes.timeout))

/-- Claim C4 as stated (core universal clause): whenever a navigation
response has status 403, the alternate-strategy fallback navigation for
that attempt appears in the run. -/
def C4Statement : Prop :=
  ∀ (cfg : RetryCfg) (o : FetchOracle) (url : String),
    StatusesWF o → JitterWF o → FallbackWF o →
    ∀ k, FetchEv.nav k ∈ (client_get cfg o url).2 →
      o.att k = AttemptRes.status 403 →
      FetchEv.fallbackNav k ∈ (client_get cfg o url).2

@[simp] theorem attemptSleeps_nil : attemptSleeps [] = [] := rfl

@[simp] theorem attemptSleeps_nav_sleep (k : ℕ) (d : ℚ) (rest : List FetchEv) :
    attemptSleeps (FetchEv.nav k :: FetchEv.sleep d :: rest) =
      (k, d) :: attemptSleeps rest := rfl

@[simp] theorem attemptSleeps_nav_nil (k : ℕ) : attemptSleeps [FetchEv.nav k] = [] := rfl

@[simp] theorem attemptSleeps_nav_nav (k j : ℕ) (rest : List FetchEv) :
    attemptSleeps (FetchEv.nav k :: FetchEv.nav j :: rest) =
      attemptSleeps (FetchEv.nav j :: rest) := rfl

@[simp] theorem attemptSleeps_nav_fallback (k j : ℕ) (rest : List FetchEv) :
    attemptSleeps (FetchEv.nav k :: FetchEv.fallbackNav j :: rest) =
      attemptSleeps (FetchEv.fallbackNav j :: rest) := rfl

@[simp] theorem attemptSleeps_fallback (k : ℕ) (rest : List FetchEv) :
    attemptSleeps (FetchEv.fallbackNav k :: rest) = attemptSleeps rest := rfl

@[simp] theorem attemptSleeps_sleep (d : ℚ) (rest : List FetchEv) :
    attemptSleeps (FetchEv.sleep d :: rest) = attemptSleeps rest := rfl

@[simp] theorem navCount_nil : navCount [] = 0 := rfl

@[simp] theorem navCount_nav (k : ℕ) (tr : List FetchEv) :
    navCount (FetchEv.nav k :: tr) = navCount tr + 1 := by
  simp [navCount, List.countP_cons]

@[simp] theorem navCount_sleep (d : ℚ) (tr : List FetchEv) :
    navCount (FetchEv.sleep d :: tr) = navCount tr := by
  simp [navCount, List.countP_cons]

@[simp] theorem navCount_fallback (k : ℕ) (tr : List FetchEv) :
    navCount (FetchEv.fallbackNav k :: tr) = navCount tr := by
  simp [navCount, List.countP_cons]

/-- The per-run invariants of the retry loop: attempt count bounded by
the remaining fuel, every recorded sleep explained by either the 403
fallback pause or the exponential backoff formula, and the surfaced
error determined by the outcome of the final attempt. -/
theorem getAux_spec (cfg : RetryCfg) (o : FetchOracle) (url : String)
    (hj : JitterWF o) (hf : FallbackWF o) :
    ∀ fuel k, fuel + k = cfg.maxRetries →
      navCount (getAux cfg o url fuel k).2 ≤ fuel ∧
      (∀ k' d, (k', d) ∈ attemptSleeps (getAux cfg o url fuel k).2 →
        (o.att k' = AttemptRes.status 403 ∧ k' + 1 < cfg.maxRetries ∧
          d = o.fallbackPause k' ∧ 3 ≤ d ∧ d ≤ 6) ∨
        (d = cfg.retryDelay * 2 ^ k' + o.backoffJitter k' ∧
          0 ≤ o.backoffJitter k' ∧ o.backoffJitter k' ≤ 2)) ∧
      (∀ er, (getAux cfg o url fuel k).1 = Except.error er →
        (er = FetchErr.timeoutErr url ↔
          o.att (cfg.maxRetries - 1) = AttemptRes.timeout) ∧
        (er = FetchErr.httpErr url ↔
          o.att (cfg.maxRetries - 1) ≠ AttemptRes.timeout)) := by
  intro fuel
  induction fuel with
  | zero =>
    intro k hinv
    refine ⟨by simp [getAux], by simp [getAux], by simp [getAux]⟩
  | succ fuel ih =>
    intro k hinv
    have hinv' : fuel + (k + 1) = cfg.maxRetries := by omega
    obtain ⟨ihn, ihs, ihe⟩ := ih (k + 1) hinv'
    cases hatt : o.att k with
    | ok c =>
      refine ⟨by simp [getAux, hatt], by simp [getAux, hatt], by simp [getAux, hatt]⟩
    | timeout =>
      by_cases hlt : k + 1 < cfg.maxRetries
      · refine ⟨?_, ?_, ?_⟩
        · simp only [getAux, hatt, if_pos hlt]
          simp only [navCount_nav, navCount_sleep]
          omega
        · simp only [getAux, hatt, if_pos hlt, attemptSleeps_nav_sleep]
          intro k' d hmem
          rcases List.mem_cons.mp hmem with hhd | htl
          · obtain ⟨hk', hd⟩ := Prod.mk.injEq .. ▸ hhd
            right
            subst hk'
            exact ⟨hd ▸ rfl, (hj k').1, (hj k').2⟩
          · exact ihs k' d htl
        · simp only [getAux, hatt, if_pos hlt]
          intro er her
          exact ihe er her
      · have hk : k = cfg.maxRetries - 1 := by omega
        refine ⟨?_, ?_, ?_⟩
        · simp [getAux, hatt, if_neg hlt]
        · simp [getAux, hatt, if_neg hlt]
        · simp only [getAux, hatt, if_neg hlt]
          intro er her
          have her' : er = FetchErr.timeoutErr url := by
            simpa using her.symm
          subst her'
          rw [← hk, hatt]
          exact ⟨by simp, by simp⟩
    | status n =>
      by_cases h403 : n = 403 ∧ k + 1 < cfg.maxRetries
      · refine ⟨?_, ?_, ?_⟩
        · simp only [getAux, hatt, if_pos h403]
          simp only [navCount_nav, navCount_sleep, navCount_fallback]
          omega
        · simp only [getAux, hatt, if_pos h403, attemptSleeps_nav_sleep,
            attemptSleeps_fallback]
          intro k' d hmem
          rcases List.mem_cons.mp hmem with hhd | htl
          · obtain ⟨hk', hd⟩ := Prod.mk.injEq .. ▸ hhd
            left
            subst hk'
            exact ⟨h403.1 ▸ hatt, h403.2, hd.symm ▸ rfl,
              hd ▸ (hf k').1, hd ▸ (hf k').2⟩
          · exact ihs k' d htl
        · simp only [getAux, hatt, if_pos h403]
          intro er her
          exact ihe er her
      · by_cases hlt : k + 1 < cfg.maxRetries
        · refine ⟨?_, ?_, ?_⟩
          · simp only [getAux, hatt, if_neg h403, if_pos hlt]
            simp only [navCount_nav, navCount_sleep]
            omega
          · simp only [getAux, hatt, if_neg h403, if_pos hlt, attemptSleeps_nav_sleep]
            intro k' d hmem
            rcases List.mem_cons.mp hmem with hhd | htl
            · obtain ⟨hk', hd⟩ := Prod.mk.injEq .. ▸ hhd
              right
              subst hk'
              exact ⟨hd ▸ rfl, (hj k').1, (hj k').2⟩
            · exact ihs k' d htl
          · simp only [getAux, hatt, if_neg h403, if_pos hlt]
            intro er her
            exact ihe er her
        · have hk : k = cfg.maxRetries - 1 := by omega
          refine ⟨?_, ?_, ?_⟩
          · simp [getAux, hatt, if_neg h403, if_neg hlt]
          · simp [getAux, hatt, if_neg h403, if_neg hlt]
          · simp only [getAux, hatt, if_neg h403, if_neg hlt]
            intro er her
            have her' : er = FetchErr.httpErr url := by simpa using her.symm
            subst her'
            rw [← hk, hatt]
            exact ⟨by simp, by simp⟩
    | exc =>
      by_cases hlt : k + 1 < cfg.maxRetries
      · refine ⟨?_, ?_, ?_⟩
        · simp only [getAux, hatt, if_pos hlt]
          simp only [navCount_nav, navCount_sleep]
          omega
        · simp only [getAux, hatt, if_pos hlt, attemptSleeps_nav_sleep]
          intro k' d hmem
          rcases List.mem_cons.mp hmem with hhd | htl
          · obtain ⟨hk', hd⟩ := Prod.mk.injEq .. ▸ hhd
            right
            subst hk'
            exact ⟨hd ▸ rfl, (hj k').1, (hj k').2⟩
          · exact ihs k' d htl
        · simp only [getAux, hatt, if_pos hlt]
          intro er her
          exact ihe er her
      · have hk : k = cfg.maxRetries - 1 := by omega
        refine ⟨?_, ?_, ?_⟩
        · simp [getAux, hatt, if_neg hlt]
        · simp [getAux, hatt, if_neg hlt]
        · simp only [getAux, hatt, if_neg hlt]
          intro er her
          have her' : er = FetchErr.httpErr url := by simpa using her.symm
          subst her'
          rw [← hk, hatt]
          exact ⟨by simp, by simp⟩

/-- Navigation/fallback structure of the retry loop: attempt indices in
a trace are at least the starting index; a fallback navigation for
attempt `j` occurs exactly after a 403 on a non-final attempt `j`; and a
403 on the final attempt raises `HTTPError` with no fallback. -/
theorem getAux_nav_spec (cfg : RetryCfg) (o : FetchOracle) (url : String) :
    ∀ fuel k,
      (∀ j, FetchEv.nav j ∈ (getAux cfg o url fuel k).2 → k ≤ j) ∧
      (∀ j, FetchEv.fallbackNav j ∈ (getAux cfg o url fuel k).2 →
        o.att j = AttemptRes.status 403 ∧ j + 1 < cfg.maxRetries) ∧
      (∀ j, FetchEv.nav j ∈ (getAux cfg o url fuel k).2 →
        o.att j = AttemptRes.status 403 → j + 1 < cfg.maxRetries →
        FetchEv.fallbackNav j ∈ (getAux cfg o url fuel k).2) ∧
      (∀ j, FetchEv.nav j ∈ (getAux cfg o url fuel k).2 →
        o.att j = AttemptRes.status 403 → ¬ (j + 1 < cfg.maxRetries) →
        (getAux cfg o url fuel k).1 = Except.error (FetchErr.httpErr url)) := by
  intro fuel
  induction fuel with
  | zero =>
    intro k
    refine ⟨by simp [getAux], by simp [getAux], by simp [getAux], by simp [getAux]⟩
  | succ fuel ih =>
    intro k
    obtain ⟨ihk, ihfb, ihpos, ihneg⟩ := ih (k + 1)
    cases hatt : o.att k with
    | ok c =>
      refine ⟨?_, by simp [getAux, hatt], ?_, ?_⟩
      · intro j hj
        simp only [getAux, hatt, List.mem_singleton] at hj
        injection hj with hj'
        omega
      · intro j hj h403 _
        simp only [getAux, hatt, List.mem_singleton] at hj
        injection hj with hj'
        subst hj'
        exact absurd hatt (by rw [h403]; intro hcon; exact AttemptRes.noConfusion hcon)
      · intro j hj h403 _
        simp only [getAux, hatt, List.mem_singleton] at hj
        injection hj with hj'
        subst hj'
        exact absurd hatt (by rw [h403]; intro hcon; exact AttemptRes.noConfusion hcon)
    | timeout =>
      by_cases hlt : k + 1 < cfg.maxRetries
      · refine ⟨?_, ?_, ?_, ?_⟩
        · intro j hj
          simp only [getAux, hatt, if_pos hlt, List.mem_cons] at hj
          rcases hj with h1 | h2 | h3
          · injection h1 with h1'; omega
          · exact absurd h2 (by intro hcon; exact FetchEv.noConfusion hcon)
          · have := ihk j h3; omega
        · intro j hj
          simp only [getAux, hatt, if_pos hlt, List.mem_cons] at hj
          rcases hj with h1 | h2 | h3
          · exact absurd h1 (by intro hcon; exact FetchEv.noConfusion hcon)
          · exact absurd h2 (by intro hcon; exact FetchEv.noConfusion hcon)
          · exact ihfb j h3
        · intro j hj h403 hjlt
          simp only [getAux, hatt, if_pos hlt, List.mem_cons] at hj ⊢
          rcases hj with h1 | h2 | h3
          · injection h1 with h1'
            subst h1'
            exact absurd hatt (by rw [h403]; intro hcon; exact AttemptRes.noConfusion hcon)
          · exact absurd h2 (by intro hcon; exact FetchEv.noConfusion hcon)
          · exact Or.inr (Or.inr (ihpos j h3 h403 hjlt))
        · intro j hj h403 hjlt
          simp only [getAux, hatt, if_pos hlt, List.mem_cons] at hj
          rcases hj with h1 | h2 | h3
          · injection h1 with h1'
            subst h1'
            exact absurd hatt (by rw [h403]; intro hcon; exact AttemptRes.noConfusion hcon)
          · exact absurd h2 (by intro hcon; exact FetchEv.noConfusion hcon)
          · simpa [getAux, hatt, if_pos hlt] using ihneg j h3 h403 hjlt
      · refine ⟨?_, by simp [getAux, hatt, if_neg hlt], ?_, ?_⟩
        · intro j hj
          simp only [getAux, hatt, if_neg hlt, List.mem_singleton] at hj
          injection hj with hj'; omega
        · intro j hj h403 _
          simp only [getAux, hatt, if_neg hlt, List.mem_singleton] at hj
          injection hj with hj'
          subst hj'
          exact absurd hatt (by rw [h403]; intro hcon; exact AttemptRes.noConfusion hcon)
        · intro j hj h403 _
          simp only [getAux, hatt, if_neg hlt, List.mem_singleton] at hj
          injection hj with hj'
          subst hj'
          exact absurd hatt (by rw [h403]; intro hcon; exact AttemptRes.noConfusion hcon)
    | status n =>
      by_cases h403c : n = 403 ∧ k + 1 < cfg.maxRetries
      · refine ⟨?_, ?_, ?_, ?_⟩
        · intro j hj
          simp only [getAux, hatt, if_pos h403c, List.mem_cons] at hj
          rcases hj with h1 | h2 | h3 | h4
          · injection h1 with h1'; omega
          · exact absurd h2 (by intro hcon; exact FetchEv.noConfusion hcon)
          · exact absurd h3 (by intro hcon; exact FetchEv.noConfusion hcon)
          · have := ihk j h4; omega
        · intro j hj
          simp only [getAux, hatt, if_pos h403c, List.mem_cons] at hj
          rcases hj with h1 | h2 | h3 | h4
          · exact absurd h1 (by intro hcon; exact FetchEv.noConfusion hcon)
          · exact absurd h2 (by intro hcon; exact FetchEv.noConfusion hcon)
          · injection h3 with h3'
            subst h3'
            exact ⟨h403c.1 ▸ hatt, h403c.2⟩
          · exact ihfb j h4
        · intro j hj h403 hjlt
          simp only [getAux, hatt, if_pos h403c, List.mem_cons] at hj ⊢
          rcases hj with h1 | h2 | h3 | h4
          · injection h1 with h1'
            subst h1'
            exact Or.inr (Or.inr (Or.inl rfl))
          · exact absurd h2 (by intro hcon; exact FetchEv.noConfusion hcon)
          · exact absurd h3 (by intro hcon; exact FetchEv.noConfusion hcon)
          · exact Or.inr (Or.inr (Or.inr (ihpos j h4 h403 hjlt)))
        · intro j hj h403 hjlt
          simp only [getAux, hatt, if_pos h403c, List.mem_cons] at hj
          rcases hj with h1 | h2 | h3 | h4
          · injection h1 with h1'
            subst h1'
            exact absurd h403c.2 hjlt
          · exact absurd h2 (by intro hcon; exact FetchEv.noConfusion hcon)
          · exact absurd h3 (by intro hcon; exact FetchEv.noConfusion hcon)
          · simpa [getAux, hatt, if_pos h403c] using ihneg j h4 h403 hjlt
      · by_cases hlt : k + 1 < cfg.maxRetries
        · refine ⟨?_, ?_, ?_, ?_⟩
          · intro j hj
            simp only [getAux, hatt, if_neg h403c, if_pos hlt, List.mem_cons] at hj
            rcases hj with h1 | h2 | h3
            · injection h1 with h1'; omega
            · exact absurd h2 (by intro hcon; exact FetchEv.noConfusion hcon)
            · have := ihk j h3; omega
          · intro j hj
            simp only [getAux, hatt, if_neg h403c, if_pos hlt, List.mem_cons] at hj
            rcases hj with h1 | h2 | h3
            · exact absurd h1 (by intro hcon; exact FetchEv.noConfusion hcon)
            · exact absurd h2 (by intro hcon; exact FetchEv.noConfusion hcon)
            · exact ihfb j h3
          · intro j hj h403 hjlt
            simp only [getAux, hatt, if_neg h403c, if_pos hlt, List.mem_cons] at hj ⊢
            rcases hj with h1 | h2 | h3
            · injection h1 with h1'
              subst h1'
              rw [hatt] at h403
              injection h403 with hn
              exact absurd ⟨hn, hlt⟩ h403c
            · exact absurd h2 (by intro hcon; exact FetchEv.noConfusion hcon)
            · exact Or.inr (Or.inr (ihpos j h3 h403 hjlt))
          · intro j hj h403 hjlt
            simp only [getAux, hatt, if_neg h403c, if_pos hlt, List.mem_cons] at hj
            rcases hj with h1 | h2 | h3
            · injection h1 with h1'
              subst h1'
              rw [hatt] at h403
              injection h403 with hn
              exact absurd ⟨hn, hlt⟩ h403c
            · exact absurd h2 (by intro hcon; exact FetchEv.noConfusion hcon)
            · simpa [getAux, hatt, if_neg h403c, if_pos hlt] using ihneg j h3 h403 hjlt
        · refine ⟨?_, by simp [getAux, hatt, if_neg h403c, if_neg hlt], ?_, ?_⟩
          · intro j hj
            simp only [getAux, hatt, if_neg h403c, if_neg hlt, List.mem_singleton] at hj
            injection hj with hj'; omega
          · intro j hj h403 hjlt
            simp only [getAux, hatt, if_neg h403c, if_neg hlt, List.mem_singleton] at hj
            injection hj with hj'
            subst hj'
            exact absurd hjlt (by simpa using hlt)
          · intro j hj h403 hjlt
            simp only [getAux, hatt, if_neg h403c, if_neg hlt]
    | exc =>
      by_cases hlt : k + 1 < cfg.maxRetries
      · refine ⟨?_, ?_, ?_, ?_⟩
        · intro j hj
          simp only [getAux, hatt, if_pos hlt, List.mem_cons] at hj
          rcases hj with h1 | h2 | h3
          · injection h1 with h1'; omega
          · exact absurd h2 (by intro hcon; exact FetchEv.noConfusion hcon)
          · have := ihk j h3; omega
        · intro j hj
          simp only [getAux, hatt, if_pos hlt, List.mem_cons] at hj
          rcases hj with h1 | h2 | h3
          · exact absurd h1 (by intro hcon; exact FetchEv.noConfusion hcon)
          · exact absurd h2 (by intro hcon; exact FetchEv.noConfusion hcon)
          · exact ihfb j h3
        · intro j hj h403 hjlt
          simp only [getAux, hatt, if_pos hlt, List.mem_cons] at hj ⊢
          rcases hj with h1 | h2 | h3
          · injection h1 with h1'
            subst h1'
            exact absurd hatt (by rw [h403]; intro hcon; exact AttemptRes.noConfusion hcon)
          · exact absurd h2 (by intro hcon; exact FetchEv.noConfusion hcon)
          · exact Or.inr (Or.inr (ihpos j h3 h403 hjlt))
        · intro j hj h403 hjlt
          simp only [getAux, hatt, if_pos hlt, List.mem_cons] at hj
          rcases hj with h1 | h2 | h3
          · injection h1 with h1'
            subst h1'
            exact absurd hatt (by rw [h403]; intro hcon; exact AttemptRes.noConfusion hcon)
          · exact absurd h2 (by intro hcon; exact FetchEv.noConfusion hcon)
          · simpa [getAux, hatt, if_pos hlt] using ihneg j h3 h403 hjlt
      · refine ⟨?_, by simp [getAux, hatt, if_neg hlt], ?_, ?_⟩
        · intro j hj
          simp only [getAux, hatt, if_neg hlt, List.mem_singleton] at hj
          injection hj with hj'; omega
        · intro j hj h403 _
          simp only [getAux, hatt, if_neg hlt, List.mem_singleton] at hj
          injection hj with hj'
          subst hj'
          exact absurd hatt (by rw [h403]; intro hcon; exact AttemptRes.noConfusion hcon)
        · intro j hj h403 _
          simp only [getAux, hatt, if_neg hlt, List.mem_singleton] at hj
          injection hj with hj'
          subst hj'
          exact absurd hatt (by rw [h403]; intro hcon; exact AttemptRes.noConfusion hcon)

/-- A run where attempt 0 gets a 403 (taking the fallback path) and
attempt 1 times out. -/
def cexOracle : FetchOracle :=
  { att := fun k => if k = 0 then AttemptRes.status 403 else AttemptRes.timeout,
    backoffJitter := fun _ => 1,
    fallbackPause := fun _ => 4 }

def cexCfg : RetryCfg := { maxRetries := 2, retryDelay := 5 }

theorem cexStatusesWF : StatusesWF cexOracle := by
  intro k n h
  by_cases hk : k = 0
  · simp only [cexOracle, hk, if_pos rfl] at h
    injection h with h'
    omega
  · simp only [cexOracle, if_neg hk] at h
    exact absurd h (by intro hcon; exact AttemptRes.noConfusion hcon)

theorem cexJitterWF : JitterWF cexOracle := by
  intro k
  exact ⟨by norm_num [cexOracle], by norm_num [cexOracle]⟩

theorem cexFallbackWF : FallbackWF cexOracle := by
  intro k
  exact ⟨by norm_num [cexOracle], by norm_num [cexOracle]⟩

/-- C3, counterexample: after a 403 on attempt 0 the loop `continue`s
with only the 3–6s pause of `_try_alternative_strategy`; the recorded
inter-attempt wait (4s here) is not of the form
`retry_delay * 2**attempt + uniform(0, 2)` (which is at most 5 + 2·0 = …
here `5 * 1 + j ≤ 7` but at least `5`). -/
theorem C3_counterexample : ¬ C3Statement := by
  intro h
  obtain ⟨-, hsleep, -⟩ := h cexCfg cexOracle "u" cexStatusesWF cexJitterWF cexFallbackWF
  obtain ⟨j, hj0, hj2, heq⟩ := hsleep 0 4 (by decide)
  have heq' : (4 : ℚ) = 5 + j := by
    simpa [cexCfg] using heq
  linarith

/-- C3, amended: at most `max_retries` attempts are made; every
inter-attempt wait is either the `uniform(3, 6)` pause of the 403
fallback path (which skips the backoff) or the backoff
`retry_delay * 2**attempt + uniform(0, 2)`; and on exhaustion the loop
raises `TimeoutError(url)` exactly when the final attempt hit a load
timeout and `HTTPError(url)` otherwise. -/
theorem C3_retry_amended (cfg : RetryCfg) (o : FetchOracle) (url : String)
    (hj : JitterWF o) (hf : FallbackWF o) :
    navCount (client_get cfg o url).2 ≤ cfg.maxRetries ∧
    (∀ k d, (k, d) ∈ attemptSleeps (client_get cfg o url).2 →
      (o.att k = AttemptRes.status 403 ∧ k + 1 < cfg.maxRetries ∧
        d = o.fallbackPause k ∧ 3 ≤ d ∧ d ≤ 6) ∨
      (d = cfg.retryDelay * 2 ^ k + o.backoffJitter k ∧
        0 ≤ o.backoffJitter k ∧ o.backoffJitter k ≤ 2)) ∧
    (∀ er, (client_get cfg o url).1 = Except.error er →
      (er = FetchErr.timeoutErr url ↔
        o.att (cfg.maxRetries - 1) = AttemptRes.timeout) ∧
      (er = FetchErr.httpErr url ↔
        o.att (cfg.maxRetries - 1) ≠ AttemptRes.timeout)) :=
  getAux_spec cfg o url hj hf cfg.maxRetries 0 (by omega)

/-- A run where attempt 0 times out and attempt 1 succeeds. -/
def witOracle : FetchOracle :=
  { att := fun k => if k = 0 then AttemptRes.timeout else AttemptRes.ok "page",
    backoffJitter := fun _ => 1,
    fallbackPause := fun _ => 4 }

def witCfg : RetryCfg := { maxRetries := 3, retryDelay := 1 }

/-- Witness for `C3_retry_amended`: the concrete backoff sleep
`1 * 2**0 + 1 = 2` after the first timeout. -/
theorem C3_retry_amended_witness :
    navCount (client_get witCfg witOracle "https://x").2 ≤ witCfg.maxRetries ∧
    ((witOracle.att 0 = AttemptRes.status 403 ∧ 0 + 1 < witCfg.maxRetries ∧
        (2 : ℚ) = witOracle.fallbackPause 0 ∧ 3 ≤ (2 : ℚ) ∧ (2 : ℚ) ≤ 6) ∨
      ((2 : ℚ) = witCfg.retryDelay * 2 ^ 0 + witOracle.backoffJitter 0 ∧
        0 ≤ witOracle.backoffJitter 0 ∧ witOracle.backoffJitter 0 ≤ 2)) := by
  have h := C3_retry_amended witCfg witOracle "https://x"
    (fun k => ⟨by norm_num [witOracle], by norm_num [witOracle]⟩)
    (fun k => ⟨by norm_num [witOracle], by norm_num [witOracle]⟩)
  have htr : attemptSleeps (client_get witCfg witOracle "https://x").2 =
      [((0 : ℕ), (2 : ℚ))] := by
    norm_num [client_get, getAux, witCfg, witOracle]
  exact ⟨h.1, h.2.1 0 2 (by rw [htr]; exact List.mem_singleton.mpr rfl)⟩

/-- A run that answers every navigation with a 403. -/
def c4cexOracle : FetchOracle :=
  { att := fun _ => AttemptRes.status 403,
    backoffJitter := fun _ => 1,
    fallbackPause := fun _ => 4 }

/-- C4, counterexample: a 403 on the final attempt (here
`max_retries = 1`) raises `HTTPError` directly — the alternate-strategy
fallback is not applied, contradicting „whenever". -/
theorem C4_counterexample : ¬ C4Statement := by
  intro h
  have hmem := h { maxRetries := 1, retryDelay := 5 } c4cexOracle "u"
    (fun k n hkn => by
      injection hkn with h'
      omega)
    (fun k => ⟨by norm_num [c4cexOracle], by norm_num [c4cexOracle]⟩)
    (fun k => ⟨by norm_num [c4cexOracle], by norm_num [c4cexOracle]⟩)
    0 (by decide) rfl
  exact absurd hmem (by decide)

/-- C4, amended: the alternate-strategy fallback navigation runs exactly
after a 403 on a non-final attempt; a 403 on the final attempt raises
`HTTPError` with no fallback, and no other status ever triggers the
fallback. -/
theorem C4_fallback_amended (cfg : RetryCfg) (o : FetchOracle) (url : String) :
    (∀ k, FetchEv.nav k ∈ (client_get cfg o url).2 →
      o.att k = AttemptRes.status 403 → k + 1 < cfg.maxRetries →
      FetchEv.fallbackNav k ∈ (client_get cfg o url).2) ∧
    (∀ k, FetchEv.fallbackNav k ∈ (client_get cfg o url).2 →
      o.att k = AttemptRes.status 403 ∧ k + 1 < cfg.maxRetries) ∧
    (∀ k, FetchEv.nav k ∈ (client_get cfg o url).2 →
      o.att k = AttemptRes.status 403 → ¬ (k + 1 < cfg.maxRetries) →
      (client_get cfg o url).1 = Except.error (FetchErr.httpErr url)) := by
  obtain ⟨h1, h2, h3, h4⟩ := getAux_nav_spec cfg o url cfg.maxRetries 0
  exact ⟨h3, h2, h4⟩

/-- A run with a 403 on attempt 0 and success afterwards. -/
def c4witOracle : FetchOracle :=
  { att := fun k => if k = 0 then AttemptRes.status 403 else AttemptRes.ok "page",
    backoffJitter := fun _ => 1,
    fallbackPause := fun _ => 4 }

/-- Witness for `C4_fallback_amended`: with `max_retries = 3`, a 403 on
attempt 0 leads to the fallback's second navigation before the attempt
is exhausted. -/
theorem C4_fallback_amended_witness :
    FetchEv.fallbackNav 0 ∈
      (client_get { maxRetries := 3, retryDelay := 5 } c4witOracle "u").2 :=
  (C4_fallback_amended { maxRetries := 3, retryDelay := 5 } c4witOracle "u").1 0
    (by decide) (by decide) (by decide)

/-! ## C5/C6/C7: mouse_movement_generator.py -/

/-- Python `int(q)`: truncation toward zero. -/
def pyInt (q : ℚ) : ℤ := if 0 ≤ q then ⌊q⌋ else ⌈q⌉

/-- Python `round(q)` (one-argument): round half to even. -/
def pyRound (q : ℚ) : ℤ :=
  if q - ⌊q⌋ < 1/2 then ⌊q⌋
  else if 1/2 < q - ⌊q⌋ then ⌊q⌋ + 1
  else if Even ⌊q⌋ then ⌊q⌋ else ⌊q⌋ + 1

theorem pyRound_ge_floor (q : ℚ) : ⌊q⌋ ≤ pyRound q := by
  unfold pyRound
  split
  · exact le_refl _
  · split
    · omega
    · split
      · exact le_refl _
      · omega

theorem pyRound_le_floor_add_one (q : ℚ) : pyRound q ≤ ⌊q⌋ + 1 := by
  unfold pyRound
  split
  · omega
  · split
    · exact le_refl _
    · split
      · omega
      · exact le_refl _

theorem pyRound_mono {a b : ℚ} (h : a ≤ b) : pyRound a ≤ pyRound b := by
  rcases lt_or_eq_of_le (Int.floor_le_floor h) with hf | hf
  · calc pyRound a ≤ ⌊a⌋ + 1 := pyRound_le_floor_add_one a
      _ ≤ ⌊b⌋ := by omega
      _ ≤ pyRound b := pyRound_ge_floor b
  · have hr : a - (⌊a⌋ : ℚ) ≤ b - (⌊a⌋ : ℚ) := sub_le_sub_right h _
    unfold pyRound
    rw [← hf]
    by_cases h1 : a - ⌊a⌋ < 1/2
    · rw [if_pos h1]
      split
      · exact le_refl _
      · split
        · omega
        · split
          · exact le_refl _
          · omega
    · rw [if_neg h1]
      have hb1 : ¬ (b - ⌊a⌋ < 1/2) := by
        intro hcon
        exact h1 (lt_of_le_of_lt hr hcon)
      rw [if_neg hb1]
      by_cases h2 : 1/2 < a - ⌊a⌋
      · rw [if_pos h2]
        have hb2 : 1/2 < b - ⌊a⌋ := lt_of_lt_of_le h2 hr
        rw [if_pos hb2]
      · rw [if_neg h2]
        by_cases h3 : 1/2 < b - ⌊a⌋
        · rw [if_pos h3]
          split
          · omega
          · exact le_refl _
        · rw [if_neg h3]

theorem pyRound_eq_of_abs_lt {q : ℚ} {m : ℤ} (h : |q - m| < 1/2) : pyRound q = m := by
  rw [abs_lt] at h
  obtain ⟨hlo, hhi⟩ := h
  by_cases hge : (m : ℚ) ≤ q
  · have hfl : ⌊q⌋ = m := by
      rw [Int.floor_eq_iff]
      constructor
      · exact_mod_cast hge
      · push_cast
        linarith
    unfold pyRound
    rw [hfl]
    rw [if_pos (by push_cast; linarith)]
  · push_neg at hge
    have hfl : ⌊q⌋ = m - 1 := by
      rw [Int.floor_eq_iff]
      constructor
      · push_cast
        linarith
      · push_cast
        linarith
    unfold pyRound
    rw [hfl]
    rw [if_neg (by push_cast; linarith), if_pos (by push_cast; linarith)]
    omega

theorem pyRound_abs_le {q : ℚ} {B : ℚ} (hB : 0 ≤ B) (h : |q| ≤ B) :
    |(pyRound q : ℚ)| ≤ B + 1 := by
  rw [abs_le] at h ⊢
  have h1 := pyRound_ge_floor q
  have h2 := pyRound_le_floor_add_one q
  have h3 : (⌊q⌋ : ℚ) ≤ q := Int.floor_le q
  have h4 : q - 1 < ⌊q⌋ := by
    have := Int.sub_one_lt_floor q
    exact_mod_cast this
  constructor
  · have : ((⌊q⌋ : ℤ) : ℚ) ≤ (pyRound q : ℚ) := by exact_mod_cast h1
    linarith
  · have : ((pyRound q : ℤ) : ℚ) ≤ ((⌊q⌋ : ℤ) : ℚ) + 1 := by exact_mod_cast h2
    linarith

/-- The parameter dictionary of `MouseMovementGenerator` (the merge
`{**default_params, **(params or {})}` yields one full record). -/
structure MovementParams where
  duration_range_ms : ℤ × ℤ
  steps_per_100px : ℤ
  jitter_px : ℚ
  overshoot_px : ℚ
  overshoot_prob : ℚ
  pause_prob : ℚ
  pause_duration_range_ms : ℤ × ℤ
  hover_after_ms : ℤ × ℤ
  easing : String
  deriving Repr

/-- The `self.default_params` dict of `MouseMovementGenerator.__init__`. -/
def default_params : MovementParams :=
  { duration_range_ms := (400, 1200), steps_per_100px := 12, jitter_px := 3/2,
    overshoot_px := 8, overshoot_prob := 3/20, pause_prob := 9/50,
    pause_duration_range_ms := (30, 260), hover_after_ms := (80, 420),
    easing := "easeInOutQuad" }

/-- Method `MouseMovementGenerator._adapt_for_mobile`. -/
def adapt_for_mobile (p : MovementParams) : MovementParams :=
  { p with steps_per_100px := max 8 (p.steps_per_100px - 4),
           jitter_px := p.jitter_px * (4/5),
           overshoot_px := p.overshoot_px * (3/5),
           overshoot_prob := p.overshoot_prob * (7/10),
           pause_prob := p.pause_prob * (6/5) }

/-- The `final_params` of `generate_movement`. -/
def finalParams (device : String) (p : MovementParams) : MovementParams :=
  if device = "mobile" then adapt_for_mobile p else p

/-- The random draws consumed by one `generate_movement` call, in the
oracle model: `durationDraw` is `randint(*duration_range_ms)`,
`stepVariation` is `randint(-5, 10)`, `jitterX i`/`jitterY i` are the
standard normal draws behind `np.random.normal(0, σ)` (the call returns
`σ * draw`), `overshootDraw`/`pauseDraw i`/`hoverDraw` are
`random.random()`, `overshootPos` is `uniform(0.8, 0.9)`, `pauseDur i`
is `randint(*pause_duration_range_ms)`, `timeVariation i` is
`uniform(0.8, 1.2)` and `hoverDur` is `randint(*hover_after_ms)`.
Seeding `random`/`numpy` with a fixed seed fixes this record. -/
structure MouseOracle where
  durationDraw : ℤ
  stepVariation : ℤ
  jitterX : ℕ → ℚ
  jitterY : ℕ → ℚ
  overshootDraw : ℚ
  overshootPos : ℚ
  pauseDraw : ℕ → ℚ
  pauseDur : ℕ → ℤ
  timeVariation : ℕ → ℚ
  hoverDraw : ℚ
  hoverDur : ℤ

/-- Method `MouseMovementGenerator._calculate_duration` (the params argument
only feeds the `randint` range, which constrains `durationDraw`). -/
def calculate_duration (dist : ℚ) (o : MouseOracle) : ℤ :=
  pyInt ((o.durationDraw : ℚ) * (1 + min (3/2 : ℚ) (dist / 500) * (3/10)))

/-- Method `MouseMovementGenerator._calculate_step_count`. -/
def calculate_step_count (dist : ℚ) (p : MovementParams) (o : MouseOracle) : ℤ :=
  min 120 (max 20 (max 20 (pyInt (dist / 100 * (p.steps_per_100px : ℚ))) + o.stepVariation))

/-- Method `MouseMovementGenerator._apply_easing`. -/
def apply_easing (t : ℚ) (easing : String) : ℚ :=
  if easing = "easeInOutQuad" then
    if t < 1/2 then 2 * t * t else -1 + (4 - 2 * t) * t
  else if easing = "easeInOutCubic" then
    if t < 1/2 then 4 * t * t * t else (t - 1) * (2 * t - 2) * (2 * t - 2) + 1
  else t

/-- Method `MouseMovementGenerator._generate_base_trajectory` (`end` is a Lean
keyword; the end point is called `finish`). -/
def generate_base_trajectory (start finish : ℤ × ℤ) (step_count : ℕ)
    (easing : String) : List (ℚ × ℚ) :=
  (List.range step_count).map (fun (i : ℕ) =>
    let t : ℚ := if 1 < step_count then (i : ℚ) / ((step_count : ℚ) - 1) else 0
    let eased := apply_easing t easing
    ((start.1 : ℚ) + ((finish.1 : ℚ) - (start.1 : ℚ)) * eased,
     (start.2 : ℚ) + ((finish.2 : ℚ) - (start.2 : ℚ)) * eased))

/-- Method `MouseMovementGenerator._add_jitter` (the source's unused `distance`
argument is kept; `np.random.normal(0, σ)` is `σ * draw`). -/
def add_jitter (trajectory : List (ℚ × ℚ)) (jitter_px : ℚ) (distance : ℚ)
    (o : MouseOracle) : List (ℚ × ℚ) :=
  trajectory.enum.map (fun p =>
    let progress : ℚ :=
      if 1 < trajectory.length then (p.1 : ℚ) / ((trajectory.length : ℚ) - 1) else 0
    let current_jitter := jitter_px * (1 - progress * (7/10))
    (p.2.1 + current_jitter * o.jitterX p.1, p.2.2 + current_jitter * o.jitterY p.1))

/-- Python `list.insert(i, a)` for a non-negative index: insert before
position `i`, appending when `i` is past the end. -/
def pyInsert {α : Type} (i : ℕ) (a : α) (l : List α) : List α :=
  l.take i ++ a :: l.drop i

@[simp] theorem pyInsert_length {α : Type} (i : ℕ) (a : α) (l : List α) :
    (pyInsert i a l).length = l.length + 1 := by
  simp only [pyInsert, List.length_append, List.length_cons, List.length_take,
    List.length_drop]
  omega

/-- Method `MouseMovementGenerator._add_overshoot`. The Euclidean length
`math.sqrt(dx*dx + dy*dy)` is irrational in general, so the embedding
takes the `hypot` function as a parameter; theorems either hold for
every `hypot` or constrain it by the properties of the real square root
(non-negative, zero only at the origin). -/
def add_overshoot (hypot : ℚ → ℚ → ℚ) (trajectory : List (ℚ × ℚ))
    (overshoot_px : ℚ) (o : MouseOracle) : List (ℚ × ℚ) :=
  if trajectory.length < 3 then trajectory
  else
    let idx := (pyInt ((trajectory.length : ℚ) * o.overshootPos)).toNat
    if 0 < idx then
      let p1 := trajectory.getD idx (0, 0)
      let p0 := trajectory.getD (idx - 1) (0, 0)
      let len := hypot (p1.1 - p0.1) (p1.2 - p0.2)
      if 0 < len then
        pyInsert (idx + 1)
          (p1.1 + (p1.1 - p0.1) / len * overshoot_px,
           p1.2 + (p1.2 - p0.2) / len * overshoot_px) trajectory
      else trajectory
    else trajectory

/-- The loop of `MouseMovementGenerator._generate_timings`: `m` steps
remain, `i` is the step index, `current_time` the accumulator. -/
def genTimingsGo (o : MouseOracle) (base_delay : ℚ) (pause_prob : ℚ) :
    ℕ → ℕ → ℚ → List ℚ
  | 0, _, _ => []
  | m + 1, i, current_time =>
      current_time ::
        genTimingsGo o base_delay pause_prob m (i + 1)
          (if o.pauseDraw i < pause_prob then
            current_time + (base_delay + (o.pauseDur i : ℚ))
          else current_time + base_delay * o.timeVariation i)

/-- Method `MouseMovementGenerator._generate_timings` (the pause duration range
constrains `pauseDur` through the oracle hypotheses). -/
def generate_timings (step_count : ℕ) (duration : ℤ) (pause_prob : ℚ)
    (o : MouseOracle) : List ℚ :=
  genTimingsGo o ((duration : ℚ) / (step_count : ℚ)) pause_prob step_count 0 0

/-- One element of the `steps` list (`{"x": …, "y": …, "t": …}`). -/
structure MouseStep where
  x : ℤ
  y : ℤ
  t : ℤ
  deriving Repr, DecidableEq

/-- Method `MouseMovementGenerator._create_steps`: `zip` truncates to the
shorter of the trajectory and the timing list. -/
def create_steps (trajectory : List (ℚ × ℚ)) (timings : List ℚ) : List MouseStep :=
  (trajectory.zip timings).map (fun p =>
    { x := pyRound p.1.1, y := pyRound p.1.2, t := pyRound p.2 })

/-- The returned movement dict (steps plus the meta fields). -/
structure MovementPlan where
  steps : List MouseStep
  total_duration_ms : ℤ
  step_count : ℕ
  distance_px : ℚ
  device : String
  deriving Repr

/-- Method `MouseMovementGenerator.generate_movement`. The Euclidean distance
(`math.sqrt`, irrational in general) is passed in as `dist`; theorems
constrain it by interval bounds that the float value satisfies. The
`viewport` argument is unused by the source body and kept for the
signature. With step count at least 20 the steps list is never empty,
so the `steps[-1]` of the hover branch is total here; the impossible
empty case appends nothing. -/
def generate_movement (hypot : ℚ → ℚ → ℚ) (start finish viewport : ℤ × ℤ)
    (device : String) (params : MovementParams) (dist : ℚ)
    (o : MouseOracle) : MovementPlan :=
  let fp := finalParams device params
  let duration := calculate_duration dist o
  let n := (calculate_step_count dist fp o).toNat
  let base := generate_base_trajectory start finish n fp.easing
  let jittered := add_jitter base fp.jitter_px dist o
  let traj := if o.overshootDraw < fp.overshoot_prob
              then add_overshoot hypot jittered fp.overshoot_px o else jittered
  let timings := generate_timings n duration fp.pause_prob o
  let steps0 := create_steps traj timings
  let steps :=
    if o.hoverDraw < 3/10 then
      match steps0.getLast? with
      | Option.some last =>
          steps0 ++ [{ x := finish.1, y := finish.2, t := last.t + o.hoverDur }]
      | Option.none => steps0
    else steps0
  { steps := steps,
    total_duration_ms := ((steps.getLast?).map (fun s => s.t)).getD 0,
    step_count := steps.length,
    distance_px := dist,
    device := device }

/-- Well-formedness of a (merged) parameter record: the `randint` ranges
are ordered and non-negative. Mobile adaptation leaves these fields
unchanged. -/
def ParamsWF (p : MovementParams) : Prop :=
  0 ≤ p.duration_range_ms.1 ∧ p.duration_range_ms.1 ≤ p.duration_range_ms.2 ∧
  0 ≤ p.pause_duration_range_ms.1 ∧
  p.pause_duration_range_ms.1 ≤ p.pause_duration_range_ms.2 ∧
  0 ≤ p.hover_after_ms.1 ∧ p.hover_after_ms.1 ≤ p.hover_after_ms.2

/-- The oracle draws lie in the supports of the distributions the source
samples (for the parameter record actually in effect). -/
def OracleWF (p : MovementParams) (o : MouseOracle) : Prop :=
  p.duration_range_ms.1 ≤ o.durationDraw ∧ o.durationDraw ≤ p.duration_range_ms.2 ∧
  -5 ≤ o.stepVariation ∧ o.stepVariation ≤ 10 ∧
  0 ≤ o.overshootDraw ∧ o.overshootDraw < 1 ∧
  4/5 ≤ o.overshootPos ∧ o.overshootPos ≤ 9/10 ∧
  (∀ i, 0 ≤ o.pauseDraw i ∧ o.pauseDraw i < 1) ∧
  (∀ i, p.pause_duration_range_ms.1 ≤ o.pauseDur i ∧
    o.pauseDur i ≤ p.pause_duration_range_ms.2) ∧
  (∀ i, 4/5 ≤ o.timeVariation i ∧ o.timeVariation i ≤ 6/5) ∧
  0 ≤ o.hoverDraw ∧ o.hoverDraw < 1 ∧
  p.hover_after_ms.1 ≤ o.hoverDur ∧ o.hoverDur ≤ p.hover_after_ms.2

theorem pyInt_nonneg {q : ℚ} (h : 0 ≤ q) : 0 ≤ pyInt q := by
  unfold pyInt
  rw [if_pos h]
  exact Int.le_floor.mpr (by exact_mod_cast h)

theorem calculate_step_count_bounds (dist : ℚ) (p : MovementParams) (o : MouseOracle) :
    20 ≤ (calculate_step_count dist p o).toNat ∧
    (calculate_step_count dist p o).toNat ≤ 120 := by
  unfold calculate_step_count
  have h1 : (20 : ℤ) ≤
      min 120 (max 20 (max 20 (pyInt (dist / 100 * (p.steps_per_100px : ℚ))) +
        o.stepVariation)) :=
    le_min (by norm_num) (le_max_left _ _)
  have h2 : min 120 (max 20 (max 20 (pyInt (dist / 100 * (p.steps_per_100px : ℚ))) +
      o.stepVariation)) ≤ 120 := min_le_left _ _
  omega

theorem generate_base_trajectory_length (s f : ℤ × ℤ) (n : ℕ) (e : String) :
    (generate_base_trajectory s f n e).length = n := by
  rw [generate_base_trajectory, List.length_map, List.length_range]

theorem add_jitter_length (tr : List (ℚ × ℚ)) (jp dist : ℚ) (o : MouseOracle) :
    (add_jitter tr jp dist o).length = tr.length := by
  simp [add_jitter, List.enum_length]

theorem add_overshoot_length_ge (hypot : ℚ → ℚ → ℚ) (tr : List (ℚ × ℚ)) (px : ℚ)
    (o : MouseOracle) : tr.length ≤ (add_overshoot hypot tr px o).length := by
  simp only [add_overshoot]
  split
  · exact le_refl _
  · split
    · split
      · rw [pyInsert_length]
        omega
      · exact le_refl _
    · exact le_refl _

theorem genTimingsGo_length (o : MouseOracle) (bd pp : ℚ) :
    ∀ m i cur, (genTimingsGo o bd pp m i cur).length = m := by
  intro m
  induction m with
  | zero => intro i cur; rfl
  | succ m ih =>
    intro i cur
    rw [genTimingsGo]
    simp [ih]

theorem generate_timings_length (n : ℕ) (dur : ℤ) (pp : ℚ) (o : MouseOracle) :
    (generate_timings n dur pp o).length = n :=
  genTimingsGo_length o _ pp n 0 0

theorem genTimingsGo_chain (o : MouseOracle) (bd pp : ℚ) (hbd : 0 ≤ bd)
    (hpd : ∀ i, 0 ≤ o.pauseDur i) (htv : ∀ i, 0 ≤ o.timeVariation i) :
    ∀ m i cur, List.Chain' (fun a b => a ≤ b) (genTimingsGo o bd pp m i cur) := by
  intro m
  induction m with
  | zero => intro i cur; simp [genTimingsGo]
  | succ m ih =>
    intro i cur
    rw [genTimingsGo, List.chain'_cons']
    refine ⟨?_, ih (i + 1) _⟩
    intro y hy
    cases m with
    | zero => simp [genTimingsGo] at hy
    | succ m' =>
      rw [genTimingsGo] at hy
      simp only [List.head?_cons, Option.mem_some_iff] at hy
      subst hy
      by_cases hpause : o.pauseDraw i < pp
      · rw [if_pos hpause]
        have h1 : (0 : ℚ) ≤ (o.pauseDur i : ℚ) := by exact_mod_cast hpd i
        linarith
      · rw [if_neg hpause]
        have h2 : 0 ≤ bd * o.timeVariation i := mul_nonneg hbd (htv i)
        linarith

theorem create_steps_chain : ∀ (tr : List (ℚ × ℚ)) (ts : List ℚ),
    List.Chain' (fun a b => a ≤ b) ts →
    List.Chain' (fun a b => a.t ≤ b.t) (create_steps tr ts) := by
  intro tr
  induction tr with
  | nil => intro ts h; simp [create_steps]
  | cons a tr ih =>
    intro ts h
    cases ts with
    | nil => simp [create_steps]
    | cons b ts' =>
      rw [create_steps, List.zip_cons_cons, List.map_cons, List.chain'_cons']
      constructor
      · intro y hy
        cases tr with
        | nil => simp at hy
        | cons a' tr' =>
          cases ts' with
          | nil => simp at hy
          | cons b' ts'' =>
            rw [List.zip_cons_cons, List.map_cons] at hy
            simp only [List.head?_cons, Option.mem_some_iff] at hy
            subst hy
            exact pyRound_mono (List.chain'_cons.mp h).1
      · exact ih ts' (List.Chain'.tail h)

/-- C5: for every start, end, viewport and device class (the degenerate
`start = finish` included), `generate_movement` returns a plan whose step
count lies in `[20, 121]` and whose timestamps are monotonically
non-decreasing. Stated for any well-formed parameter record (the default
and both call-site profiles qualify), any distance value, any `hypot`,
and all draws inside the sampled distributions' supports. -/
theorem C5_plan_bounds (hypot : ℚ → ℚ → ℚ) (start finish viewport : ℤ × ℤ)
    (device : String) (params : MovementParams) (dist : ℚ) (o : MouseOracle)
    (hp : ParamsWF (finalParams device params))
    (ho : OracleWF (finalParams device params) o) (hd : 0 ≤ dist) :
    20 ≤ (generate_movement hypot start finish viewport device params dist o).steps.length ∧
    (generate_movement hypot start finish viewport device params dist o).steps.length ≤ 121 ∧
    List.Chain' (fun a b => a.t ≤ b.t)
      (generate_movement hypot start finish viewport device params dist o).steps := by
  obtain ⟨hdr0, hdr1, hpd0, hpd1, hhov0, hhov1⟩ := hp
  obtain ⟨hod0, hod1, hsv0, hsv1, hov0, hov1, hop0, hop1, hpdraw, hpdur, htv,
    hh0, hh1, hhd0, hhd1⟩ := ho
  set fp := finalParams device params with hfp
  set n := (calculate_step_count dist fp o).toNat with hn
  set duration := calculate_duration dist o with hduration
  set base := generate_base_trajectory start finish n fp.easing with hbase
  set jittered := add_jitter base fp.jitter_px dist o with hjit
  set traj := (if o.overshootDraw < fp.overshoot_prob
      then add_overshoot hypot jittered fp.overshoot_px o else jittered) with htraj
  set timings := generate_timings n duration fp.pause_prob o with htimings
  set steps0 := create_steps traj timings with hsteps0
  have hplan : (generate_movement hypot start finish viewport device params dist o).steps =
      (if o.hoverDraw < 3/10 then
        match steps0.getLast? with
        | Option.some last =>
            steps0 ++ [{ x := finish.1, y := finish.2, t := last.t + o.hoverDur }]
        | Option.none => steps0
      else steps0) := rfl
  have hnb := calculate_step_count_bounds dist fp o
  rw [← hn] at hnb
  have hlenjit : jittered.length = n := by
    rw [hjit, add_jitter_length, hbase, generate_base_trajectory_length]
  have hlentraj : n ≤ traj.length := by
    rw [htraj]
    split
    · calc n = jittered.length := hlenjit.symm
        _ ≤ _ := add_overshoot_length_ge hypot jittered fp.overshoot_px o
    · rw [hlenjit]
  have hlentim : timings.length = n := by
    rw [htimings]
    exact generate_timings_length n duration fp.pause_prob o
  have hlen0 : steps0.length = n := by
    rw [hsteps0, create_steps, List.length_map, List.length_zip, hlentim]
    exact min_eq_right hlentraj
  have hdurnn : 0 ≤ duration := by
    rw [hduration]
    unfold calculate_duration
    apply pyInt_nonneg
    have hfac : 0 ≤ min (3/2 : ℚ) (dist / 500) :=
      le_min (by norm_num) (by positivity)
    have hdd : (0 : ℚ) ≤ (o.durationDraw : ℚ) := by
      exact_mod_cast le_trans hdr0 hod0
    nlinarith
  have hbd : 0 ≤ (duration : ℚ) / (n : ℚ) :=
    div_nonneg (by exact_mod_cast hdurnn) (by positivity)
  have hchain_t : List.Chain' (fun a b => a ≤ b) timings := by
    rw [htimings]
    unfold generate_timings
    exact genTimingsGo_chain o _ fp.pause_prob hbd
      (fun i => le_trans hpd0 (hpdur i).1)
      (fun i => le_trans (by norm_num) (htv i).1) n 0 0
  have hchain0 : List.Chain' (fun a b => a.t ≤ b.t) steps0 := by
    rw [hsteps0]
    exact create_steps_chain traj timings hchain_t
  rw [hplan]
  split
  · cases hlast : steps0.getLast? with
    | none =>
      exfalso
      have hnil : steps0 = [] := List.getLast?_eq_none_iff.mp hlast
      rw [hnil] at hlen0
      simp only [List.length_nil] at hlen0
      omega
    | some last =>
      refine ⟨?_, ?_, ?_⟩
      · simp only [List.length_append, List.length_cons, List.length_nil, hlen0]
        omega
      · simp only [List.length_append, List.length_cons, List.length_nil, hlen0]
        omega
      · rw [List.chain'_append]
        refine ⟨hchain0, List.chain'_singleton _, ?_⟩
        intro x hx y hy
        rw [hlast, Option.mem_some_iff] at hx
        simp only [List.head?_cons, Option.mem_some_iff] at hy
        subst hx
        subst hy
        have : (0 : ℤ) ≤ o.hoverDur := le_trans hhov0 hhd0
        show last.t ≤ last.t + o.hoverDur
        omega
  · exact ⟨by omega, by omega, hchain0⟩

/-- A concrete draw record: no overshoot, no pause, no hover, zero
jitter draws. -/
def c5Oracle : MouseOracle :=
  { durationDraw := 400, stepVariation := 0, jitterX := fun _ => 0,
    jitterY := fun _ => 0, overshootDraw := 1/2, overshootPos := 17/20,
    pauseDraw := fun _ => 1/2, pauseDur := fun _ => 30,
    timeVariation := fun _ => 1, hoverDraw := 1/2, hoverDur := 80 }

theorem c5Oracle_wf : OracleWF default_params c5Oracle := by
  refine ⟨?_, ?_, ?_, ?_, ?_, ?_, ?_, ?_, fun i => ⟨?_, ?_⟩, fun i => ⟨?_, ?_⟩,
    fun i => ⟨?_, ?_⟩, ?_, ?_, ?_, ?_⟩ <;> norm_num [c5Oracle, default_params]

/-- Witness for `C5_plan_bounds` at the degenerate input
`start = finish = (0, 0)` with default parameters. -/
theorem C5_plan_bounds_witness :
    20 ≤ (generate_movement (fun _ _ => 0) (0, 0) (0, 0) (1920, 1080) "desktop"
      default_params 0 c5Oracle).steps.length ∧
    (generate_movement (fun _ _ => 0) (0, 0) (0, 0) (1920, 1080) "desktop"
      default_params 0 c5Oracle).steps.length ≤ 121 ∧
    List.Chain' (fun a b => a.t ≤ b.t)
      (generate_movement (fun _ _ => 0) (0, 0) (0, 0) (1920, 1080) "desktop"
        default_params 0 c5Oracle).steps :=
  C5_plan_bounds (fun _ _ => 0) (0, 0) (0, 0) (1920, 1080) "desktop" default_params 0
    c5Oracle
    (by
      rw [show finalParams "desktop" default_params = default_params from rfl]
      refine ⟨?_, ?_, ?_, ?_, ?_, ?_⟩ <;> norm_num [default_params])
    (by
      rw [show finalParams "desktop" default_params = default_params from rfl]
      exact c5Oracle_wf)
    (le_refl 0)

/-- C6: `generate_movement` is a pure function of its inputs and the
draw record; with a fixed seed the `random`/`np.random` draw sequence is
fixed, so two calls with the same seed and identical inputs produce
identical plans. -/
theorem C6_deterministic (hypot : ℚ → ℚ → ℚ) (start finish viewport : ℤ × ℤ)
    (device : String) (params : MovementParams) (dist : ℚ) (o₁ o₂ : MouseOracle)
    (h : o₁ = o₂) :
    generate_movement hypot start finish viewport device params dist o₁ =
      generate_movement hypot start finish viewport device params dist o₂ := by
  rw [h]

/-- Witness for `C6_deterministic` at a concrete seed's draw record. -/
theorem C6_deterministic_witness :
    generate_movement (fun _ _ => 0) (0, 0) (100, 100) (1920, 1080) "desktop"
        default_params 15 c5Oracle =
      generate_movement (fun _ _ => 0) (0, 0) (100, 100) (1920, 1080) "desktop"
        default_params 15 c5Oracle :=
  C6_deterministic (fun _ _ => 0) (0, 0) (100, 100) (1920, 1080) "desktop"
    default_params 15 c5Oracle c5Oracle rfl

theorem pyRound_bounds {q : ℚ} (h : |q| ≤ 3/2) : -2 ≤ pyRound q ∧ pyRound q ≤ 2 := by
  have h1 := pyRound_ge_floor q
  have h2 := pyRound_le_floor_add_one q
  rw [abs_le] at h
  have hfl : (-2 : ℤ) ≤ ⌊q⌋ := Int.le_floor.mpr (by push_cast; linarith)
  have hfu : ⌊q⌋ ≤ 1 := by
    by_contra hc
    push_neg at hc
    have h3 : (2 : ℚ) ≤ (⌊q⌋ : ℚ) := by exact_mod_cast hc
    have h4 := Int.floor_le q
    linarith
  omega

theorem base_traj_getElem (s f : ℤ × ℤ) (n : ℕ) (e : String) (i : ℕ)
    (hi : i < n) (h1 : 1 < n) :
    (generate_base_trajectory s f n e)[i]? =
      Option.some
        ((s.1 : ℚ) + ((f.1 : ℚ) - (s.1 : ℚ)) *
            apply_easing ((i : ℚ) / ((n : ℚ) - 1)) e,
         (s.2 : ℚ) + ((f.2 : ℚ) - (s.2 : ℚ)) *
            apply_easing ((i : ℚ) / ((n : ℚ) - 1)) e) := by
  unfold generate_base_trajectory
  rw [List.getElem?_map, List.getElem?_range hi]
  simp only [Option.map_some']
  congr 1
  simp only [if_pos h1]

theorem add_jitter_getElem (tr : List (ℚ × ℚ)) (jp dist : ℚ) (o : MouseOracle)
    (i : ℕ) (p : ℚ × ℚ) (hp : tr[i]? = Option.some p) (h1 : 1 < tr.length) :
    (add_jitter tr jp dist o)[i]? =
      Option.some
        (p.1 + (jp * (1 - (i : ℚ) / ((tr.length : ℚ) - 1) * (7/10))) * o.jitterX i,
         p.2 + (jp * (1 - (i : ℚ) / ((tr.length : ℚ) - 1) * (7/10))) * o.jitterY i) := by
  unfold add_jitter
  rw [List.getElem?_map, List.getElem?_enum, hp]
  simp only [Option.map_some']
  congr 1
  simp only [if_pos h1]

theorem create_steps_getElem (tr : List (ℚ × ℚ)) (ts : List ℚ) (i : ℕ)
    (p : ℚ × ℚ) (t : ℚ) (hp : tr[i]? = Option.some p) (ht : ts[i]? = Option.some t) :
    (create_steps tr ts)[i]? =
      Option.some { x := pyRound p.1, y := pyRound p.2, t := pyRound t } := by
  unfold create_steps
  rw [List.getElem?_map,
    show (tr.zip ts)[i]? = Option.some (p, t) from
      List.getElem?_zip_eq_some.mpr ⟨hp, ht⟩]
  rfl

/-- The real square root of a sum of squares is non-negative and
vanishes only at the origin. -/
def HypotWF (hypot : ℚ → ℚ → ℚ) : Prop :=
  ∀ a b, 0 ≤ hypot a b ∧ (hypot a b = 0 → a = 0 ∧ b = 0)

/-- Claim C7 as stated, specialised to runs without the trailing hover
sample (there the final non-hover point is the final step; the claim
quantifies over all seeds, so refuting this specialisation refutes the
claim). The distance bounds enclose `math.sqrt(20000) = 141.4213…`. -/
def C7Statement : Prop :=
  ∀ (hypot : ℚ → ℚ → ℚ) (dist : ℚ) (o : MouseOracle),
    HypotWF hypot → 7071/50 ≤ dist → dist ≤ 14143/100 →
    OracleWF default_params o → 3/10 ≤ o.hoverDraw →
    (∀ s, (generate_movement hypot (0, 0) (100, 100) (1920, 1080) "desktop"
        default_params dist o).steps.head? = Option.some s →
      |(s.x : ℚ)| ≤ 3/2 ∧ |(s.y : ℚ)| ≤ 3/2) ∧
    (∀ s, (generate_movement hypot (0, 0) (100, 100) (1920, 1080) "desktop"
        default_params dist o).steps.getLast? = Option.some s →
      |(s.x : ℚ) - 100| ≤ 9/20 ∧ |(s.y : ℚ) - 100| ≤ 9/20)

/-- A draw record whose overshoot fires (draw `0 < 0.15`) at position
`0.85`, with zero jitter draws, no pause and no hover. -/
def c7Oracle : MouseOracle :=
  { durationDraw := 400, stepVariation := 0, jitterX := fun _ => 0,
    jitterY := fun _ => 0, overshootDraw := 0, overshootPos := 17/20,
    pauseDraw := fun _ => 1/2, pauseDur := fun _ => 30,
    timeVariation := fun _ => 1, hoverDraw := 1/2, hoverDur := 80 }

/-- A `hypot` with the square root's sign/zero behaviour. -/
def c7hypot : ℚ → ℚ → ℚ := fun a b => if a = 0 ∧ b = 0 then 0 else 1

theorem c7Oracle_wf : OracleWF default_params c7Oracle := by
  refine ⟨?_, ?_, ?_, ?_, ?_, ?_, ?_, ?_, fun i => ⟨?_, ?_⟩, fun i => ⟨?_, ?_⟩,
    fun i => ⟨?_, ?_⟩, ?_, ?_, ?_, ?_⟩ <;> norm_num [c7Oracle, default_params]

set_option maxRecDepth 100000 in
set_option maxHeartbeats 2000000 in
/-- C7, counterexample: when the overshoot fires, the inserted point
displaces the trajectory against the timing list and the `zip` in
`_create_steps` truncates the final base point away, so the last
non-hover step is the second-to-last base point — here `(99, 99)`,
which is `1` pixel (beyond the `0.45` bound) from `(100, 100)`. -/
theorem C7_counterexample : ¬ C7Statement := by
  intro h
  have hhyp : HypotWF c7hypot := by
    intro a b
    unfold c7hypot
    constructor
    · split <;> norm_num
    · split
      · intro _; assumption
      · intro h0; norm_num at h0
  obtain ⟨-, hlast⟩ := h c7hypot (7071/50) c7Oracle hhyp (le_refl _) (by norm_num)
    c7Oracle_wf (by norm_num [c7Oracle])
  have hstep : (generate_movement c7hypot (0, 0) (100, 100) (1920, 1080) "desktop"
      default_params (7071/50) c7Oracle).steps.getLast? =
      Option.some { x := 99, y := 99, t := 411 } := by
    with_unfolding_all rfl
  have hxy := hlast { x := 99, y := 99, t := 411 } hstep
  have hx := hxy.1
  norm_num at hx

/-- C7, amended: for runs in which the overshoot insertion does not fire
and no hover sample is appended, and whose normal jitter draws stay
within one standard deviation, the plan's first point is the start
`(0, 0)` up to the full jitter magnitude plus integer rounding
(coordinates in `[-2, 2]`), and its final point rounds to exactly
`(100, 100)` (the jitter bound at progress 1 is `0.45 < 0.5`). When the
overshoot fires, the final non-hover step is the second-to-last base
point instead and can leave the bound (see the counterexample). -/
theorem C7_endpoints_amended (hypot : ℚ → ℚ → ℚ) (dist : ℚ) (o : MouseOracle)
    (ho : OracleWF default_params o)
    (hnoov : default_params.overshoot_prob ≤ o.overshootDraw)
    (hnohov : 3/10 ≤ o.hoverDraw)
    (hjx : ∀ i, |o.jitterX i| ≤ 1) (hjy : ∀ i, |o.jitterY i| ≤ 1) :
    (∀ s, (generate_movement hypot (0, 0) (100, 100) (1920, 1080) "desktop"
        default_params dist o).steps.head? = Option.some s →
      -2 ≤ s.x ∧ s.x ≤ 2 ∧ -2 ≤ s.y ∧ s.y ≤ 2) ∧
    (∀ s, (generate_movement hypot (0, 0) (100, 100) (1920, 1080) "desktop"
        default_params dist o).steps.getLast? = Option.some s →
      s.x = 100 ∧ s.y = 100) := by
  have hfp : finalParams "desktop" default_params = default_params := rfl
  set n := (calculate_step_count dist (finalParams "desktop" default_params) o).toNat
    with hn
  have hnb := calculate_step_count_bounds dist (finalParams "desktop" default_params) o
  rw [← hn] at hnb
  have hn1 : 1 < n := by omega
  have hn0 : 0 < n := by omega
  set base := generate_base_trajectory (0, 0) (100, 100) n
    (finalParams "desktop" default_params).easing with hbase
  set jt := add_jitter base (finalParams "desktop" default_params).jitter_px dist o
    with hjt
  set timings := generate_timings n (calculate_duration dist o)
    (finalParams "desktop" default_params).pause_prob o with htimings
  set steps0 := create_steps jt timings with hsteps0
  have hnoov' : ¬ (o.overshootDraw < (finalParams "desktop" default_params).overshoot_prob) := by
    rw [hfp]
    exact not_lt.mpr hnoov
  have hnohov' : ¬ (o.hoverDraw < 3/10) := not_lt.mpr hnohov
  have hsteps : (generate_movement hypot (0, 0) (100, 100) (1920, 1080) "desktop"
      default_params dist o).steps = steps0 := by
    simp only [generate_movement]
    rw [if_neg hnoov', if_neg hnohov']
  have hlenbase : base.length = n := by
    rw [hbase]
    exact generate_base_trajectory_length _ _ _ _
  have hlenjt : jt.length = n := by
    rw [hjt, add_jitter_length, hlenbase]
  have hlentim : timings.length = n := by
    rw [htimings]
    exact generate_timings_length _ _ _ _
  have hlen0 : steps0.length = n := by
    rw [hsteps0, create_steps, List.length_map, List.length_zip, hlenjt, hlentim,
      min_self]
  have heas : (finalParams "desktop" default_params).easing = "easeInOutQuad" := rfl
  have hjp : (finalParams "desktop" default_params).jitter_px = 3/2 := rfl
  -- head step
  have hb0 : base[0]? = Option.some ((0 : ℚ), (0 : ℚ)) := by
    rw [hbase, heas]
    rw [base_traj_getElem (0, 0) (100, 100) n "easeInOutQuad" 0 hn0 hn1]
    norm_num [apply_easing]
  have hj0 : jt[0]? =
      Option.some ((3/2 : ℚ) * o.jitterX 0, (3/2 : ℚ) * o.jitterY 0) := by
    rw [hjt, hjp]
    rw [add_jitter_getElem base (3/2) dist o 0 ((0 : ℚ), (0 : ℚ)) hb0
      (by rw [hlenbase]; omega)]
    norm_num
  obtain ⟨t0, ht0⟩ : ∃ t0, timings[0]? = Option.some t0 := by
    cases hg : timings[0]? with
    | none =>
      exact absurd (List.getElem?_eq_none_iff.mp hg) (by rw [hlentim]; omega)
    | some t0 => exact ⟨t0, rfl⟩
  have hs0 : steps0[0]? = Option.some
      { x := pyRound ((3/2 : ℚ) * o.jitterX 0),
        y := pyRound ((3/2 : ℚ) * o.jitterY 0), t := pyRound t0 } := by
    rw [hsteps0]
    exact create_steps_getElem jt timings 0 _ t0 hj0 ht0
  -- last step
  have hcast : ((n - 1 : ℕ) : ℚ) = (n : ℚ) - 1 := by
    push_cast [Nat.cast_sub (by omega : 1 ≤ n)]
    ring
  have hdiv : ((n - 1 : ℕ) : ℚ) / ((n : ℚ) - 1) = 1 := by
    rw [hcast]
    apply div_self
    have : (2 : ℚ) ≤ (n : ℚ) := by exact_mod_cast (by omega : 2 ≤ n)
    linarith
  have heas1 : apply_easing 1 "easeInOutQuad" = 1 := by
    norm_num [apply_easing]
  have hbl : base[n - 1]? = Option.some ((100 : ℚ), (100 : ℚ)) := by
    rw [hbase, heas]
    rw [base_traj_getElem (0, 0) (100, 100) n "easeInOutQuad" (n - 1) (by omega) hn1]
    rw [hdiv, heas1]
    norm_num
  have hjl : jt[n - 1]? =
      Option.some ((100 : ℚ) + (9/20 : ℚ) * o.jitterX (n - 1),
        (100 : ℚ) + (9/20 : ℚ) * o.jitterY (n - 1)) := by
    rw [hjt, hjp]
    rw [add_jitter_getElem base (3/2) dist o (n - 1) ((100 : ℚ), (100 : ℚ)) hbl
      (by rw [hlenbase]; omega)]
    rw [hlenbase, hdiv]
    norm_num
  obtain ⟨tl, htl⟩ : ∃ tl, timings[n - 1]? = Option.some tl := by
    cases hg : timings[n - 1]? with
    | none =>
      exact absurd (List.getElem?_eq_none_iff.mp hg) (by rw [hlentim]; omega)
    | some tl => exact ⟨tl, rfl⟩
  have hsl : steps0[n - 1]? = Option.some
      { x := pyRound ((100 : ℚ) + (9/20 : ℚ) * o.jitterX (n - 1)),
        y := pyRound ((100 : ℚ) + (9/20 : ℚ) * o.jitterY (n - 1)),
        t := pyRound tl } := by
    rw [hsteps0]
    exact create_steps_getElem jt timings (n - 1) _ tl hjl htl
  constructor
  · intro s hs
    rw [hsteps, List.head?_eq_getElem?, hs0, Option.some.injEq] at hs
    subst hs
    have hx : |(3/2 : ℚ) * o.jitterX 0| ≤ 3/2 := by
      rw [abs_mul]
      calc |(3/2 : ℚ)| * |o.jitterX 0| ≤ |(3/2 : ℚ)| * 1 :=
            mul_le_mul_of_nonneg_left (hjx 0) (abs_nonneg _)
        _ = 3/2 := by norm_num
    have hy : |(3/2 : ℚ) * o.jitterY 0| ≤ 3/2 := by
      rw [abs_mul]
      calc |(3/2 : ℚ)| * |o.jitterY 0| ≤ |(3/2 : ℚ)| * 1 :=
            mul_le_mul_of_nonneg_left (hjy 0) (abs_nonneg _)
        _ = 3/2 := by norm_num
    obtain ⟨hx1, hx2⟩ := pyRound_bounds hx
    obtain ⟨hy1, hy2⟩ := pyRound_bounds hy
    exact ⟨hx1, hx2, hy1, hy2⟩
  · intro s hs
    rw [hsteps, List.getLast?_eq_getElem?, hlen0, hsl, Option.some.injEq] at hs
    subst hs
    constructor
    · apply pyRound_eq_of_abs_lt
      have : |(100 : ℚ) + (9/20 : ℚ) * o.jitterX (n - 1) - (100 : ℤ)| =
          |(9/20 : ℚ) * o.jitterX (n - 1)| := by
        push_cast
        ring_nf
      rw [this, abs_mul]
      have habs : |(9/20 : ℚ)| = 9/20 := abs_of_pos (by norm_num)
      calc |(9/20 : ℚ)| * |o.jitterX (n - 1)| ≤ |(9/20 : ℚ)| * 1 :=
            mul_le_mul_of_nonneg_left (hjx (n - 1)) (abs_nonneg _)
        _ < 1/2 := by rw [mul_one, habs]; norm_num
    · apply pyRound_eq_of_abs_lt
      have : |(100 : ℚ) + (9/20 : ℚ) * o.jitterY (n - 1) - (100 : ℤ)| =
          |(9/20 : ℚ) * o.jitterY (n - 1)| := by
        push_cast
        ring_nf
      rw [this, abs_mul]
      have habs : |(9/20 : ℚ)| = 9/20 := abs_of_pos (by norm_num)
      calc |(9/20 : ℚ)| * |o.jitterY (n - 1)| ≤ |(9/20 : ℚ)| * 1 :=
            mul_le_mul_of_nonneg_left (hjy (n - 1)) (abs_nonneg _)
        _ < 1/2 := by rw [mul_one, habs]; norm_num

/-- Witness for `C7_endpoints_amended` at the concrete no-overshoot
draw record. -/
theorem C7_endpoints_amended_witness :
    (∀ s, (generate_movement (fun _ _ => 0) (0, 0) (100, 100) (1920, 1080) "desktop"
        default_params (7071/50) c5Oracle).steps.head? = Option.some s →
      -2 ≤ s.x ∧ s.x ≤ 2 ∧ -2 ≤ s.y ∧ s.y ≤ 2) ∧
    (∀ s, (generate_movement (fun _ _ => 0) (0, 0) (100, 100) (1920, 1080) "desktop"
        default_params (7071/50) c5Oracle).steps.getLast? = Option.some s →
      s.x = 100 ∧ s.y = 100) :=
  C7_endpoints_amended (fun _ _ => 0) (7071/50) c5Oracle c5Oracle_wf
    (by norm_num [default_params, c5Oracle])
    (by norm_num [c5Oracle])
    (fun i => by norm_num [c5Oracle])
    (fun i => by norm_num [c5Oracle])

end LibertyDev
